import Mathlib

/-!
Verification of the MSPMetro ingestion pipeline against its specification.

The Python sources are shallowly embedded: Python strings are modelled as
`List Char` (a Python `str` is a sequence of Unicode code points, and Python
slicing/length operate on code points), bytes as `List Nat` with each entry
below 256, and machine words as `Nat` reduced modulo `2 ^ 32` where the
algorithm requires 32-bit wraparound.
-/

namespace MSPMetro

/-- Code points of a string literal, the `List Char` view of a Python `str`. -/
def str (s : String) : List Char := s.data

/-- Python `str.isspace` / regex `\s` character class (Unicode whitespace as
implemented by CPython: ASCII whitespace, the C1 separators, NEL, NBSP and
the Unicode space/line/paragraph separators). -/
def isPySpace (c : Char) : Bool :=
  let n := c.toNat
  (0x09 ≤ n && n ≤ 0x0D) || (0x1C ≤ n && n ≤ 0x1F) || n == 0x20 ||
  n == 0x85 || n == 0xA0 || n == 0x1680 || (0x2000 ≤ n && n ≤ 0x200A) ||
  n == 0x2028 || n == 0x2029 || n == 0x202F || n == 0x205F || n == 0x3000

/-- Unicode general category Cc (control): U+0000..U+001F and U+007F..U+009F. -/
def isCc (c : Char) : Bool :=
  let n := c.toNat
  n < 0x20 || (0x7F ≤ n && n ≤ 0x9F)

/-- Unicode general category Cf (format), as tabulated by `unicodedata`. -/
def isCf (c : Char) : Bool :=
  let n := c.toNat
  n == 0xAD || (0x600 ≤ n && n ≤ 0x605) || n == 0x61C || n == 0x6DD ||
  n == 0x70F || n == 0x890 || n == 0x891 || n == 0x8E2 || n == 0x180E ||
  (0x200B ≤ n && n ≤ 0x200F) || (0x202A ≤ n && n ≤ 0x202E) ||
  (0x2060 ≤ n && n ≤ 0x2064) || (0x2066 ≤ n && n ≤ 0x206F) ||
  n == 0xFEFF || (0xFFF9 ≤ n && n ≤ 0xFFFB) || n == 0x110BD || n == 0x110CD ||
  (0x13430 ≤ n && n ≤ 0x1343F) || (0x1BCA0 ≤ n && n ≤ 0x1BCA3) ||
  (0x1D173 ≤ n && n ≤ 0x1D17A) || n == 0xE0001 || (0xE0020 ≤ n && n ≤ 0xE007F)

/-- Characters dropped by `text_clean` line 49: categories Cc and Cf. -/
def isCcOrCf (c : Char) : Bool := isCc c || isCf c

/-- Python `s.lstrip()`. -/
def pyLstrip (l : List Char) : List Char := l.dropWhile isPySpace

/-- Python `s.rstrip()`. -/
def pyRstrip (l : List Char) : List Char := (l.reverse.dropWhile isPySpace).reverse

/-- Python `s.strip()`. -/
def pyStrip (l : List Char) : List Char := pyRstrip (pyLstrip l)

/-- Python `s[:n]` (slice by code points). -/
def pySlice (l : List Char) (n : Nat) : List Char := l.take n

/-- Python `x or ""` for an optional string. -/
def orEmpty (o : Option (List Char)) : List Char := o.getD []

/-- Python `s or None`: an empty string collapses to `None`. -/
def noneIfEmpty (l : List Char) : Option (List Char) :=
  if l = [] then none else some l

end MSPMetro

namespace MSPMetro.Sha256

/-!
SHA-256 (FIPS 180-4), as used by Python's `hashlib.sha256(...).hexdigest()`
in `ingest._sha256_text`.  Words are `Nat` taken modulo `2 ^ 32`.
-/

/-- 2 ^ 32, the word modulus. -/
def w32 : Nat := 4294967296

/-- Addition modulo 2 ^ 32. -/
def add32 (a b : Nat) : Nat := (a + b) % w32

/-- Right rotation of a 32-bit word. -/
def rotr32 (n x : Nat) : Nat := ((x >>> n) ||| (x <<< (32 - n))) % w32

/-- Logical right shift of a 32-bit word. -/
def shr32 (n x : Nat) : Nat := x >>> n

/-- Small sigma 0. -/
def ssig0 (x : Nat) : Nat := (rotr32 7 x) ^^^ (rotr32 18 x) ^^^ (shr32 3 x)

/-- Small sigma 1. -/
def ssig1 (x : Nat) : Nat := (rotr32 17 x) ^^^ (rotr32 19 x) ^^^ (shr32 10 x)

/-- Big sigma 0. -/
def bsig0 (x : Nat) : Nat := (rotr32 2 x) ^^^ (rotr32 13 x) ^^^ (rotr32 22 x)

/-- Big sigma 1. -/
def bsig1 (x : Nat) : Nat := (rotr32 6 x) ^^^ (rotr32 11 x) ^^^ (rotr32 25 x)

/-- Choice function. -/
def ch (x y z : Nat) : Nat := (x &&& y) ^^^ ((x ^^^ (w32 - 1)) &&& z)

/-- Majority function. -/
def maj (x y z : Nat) : Nat := (x &&& y) ^^^ (x &&& z) ^^^ (y &&& z)

/-- The 64 round constants. -/
def K : List Nat :=
  [1116352408, 1899447441, 3049323471, 3921009573, 961987163,
   1508970993, 2453635748, 2870763221, 3624381080, 310598401,
   607225278, 1426881987, 1925078388, 2162078206, 2614888103,
   3248222580, 3835390401, 4022224774, 264347078, 604807628,
   770255983, 1249150122, 1555081692, 1996064986, 2554220882,
   2821834349, 2952996808, 3210313671, 3336571891, 3584528711,
   113926993, 338241895, 666307205, 773529912, 1294757372,
   1396182291, 1695183700, 1986661051, 2177026350, 2456956037,
   2730485921, 2820302411, 3259730800, 3345764771, 3516065817,
   3600352804, 4094571909, 275423344, 430227734, 506948616,
   659060556, 883997877, 958139571, 1322822218, 1537002063,
   1747873779, 1955562222, 2024104815, 2227730452, 2361852424,
   2428436474, 2756734187, 3204031479, 3329325298]

/-- The initial hash value. -/
def H0 : List Nat :=
  [1779033703, 3144134277, 1013904242, 2773480762, 1359893119,
   2600822924, 528734635, 1541459225]

/-- Big-endian bytes of a number, fixed width. -/
def natToBytesBE : Nat → Nat → List Nat
  | 0, _ => []
  | n + 1, v => natToBytesBE n (v / 256) ++ [v % 256]

/-- One big-endian 32-bit word from four bytes. -/
def wordOf4 (a b c d : Nat) : Nat := ((a * 256 + b) * 256 + c) * 256 + d

/-- Group bytes into big-endian 32-bit words. -/
def bytesToWords : List Nat → List Nat
  | a :: b :: c :: d :: rest => wordOf4 a b c d :: bytesToWords rest
  | _ => []

/-- SHA-256 padding: append `0x80`, zeros to 56 mod 64, then the bit length as
an 8-byte big-endian integer. -/
def pad (msg : List Nat) : List Nat :=
  let L := msg.length
  let k := (119 - L % 64) % 64
  msg ++ 0x80 :: List.replicate k 0 ++ natToBytesBE 8 (8 * L)

/-- Split a byte list into 64-byte blocks, with explicit fuel so that the
recursion is structural (the fuel never runs out when it starts at the
length of the list). -/
def toBlocksF : Nat → List Nat → List (List Nat)
  | 0, _ => []
  | _, [] => []
  | n + 1, l => l.take 64 :: toBlocksF n (l.drop 64)

/-- Split a byte list into 64-byte blocks. -/
def toBlocks (l : List Nat) : List (List Nat) := toBlocksF l.length l

/-- Extend the 16 message-schedule words by `n` more. -/
def extendW (w : List Nat) : Nat → List Nat
  | 0 => w
  | n + 1 =>
    let k := w.length
    let x := (ssig1 (w.getD (k - 2) 0) + w.getD (k - 7) 0 +
              ssig0 (w.getD (k - 15) 0) + w.getD (k - 16) 0) % w32
    extendW (w ++ [x]) n

/-- Working state of the compression function. -/
structure St where
  a : Nat
  b : Nat
  c : Nat
  d : Nat
  e : Nat
  f : Nat
  g : Nat
  h : Nat

/-- One compression round with schedule word `wt` and constant `kt`. -/
def round1 (s : St) (wk : Nat × Nat) : St :=
  let t1 := (s.h + bsig1 s.e + ch s.e s.f s.g + wk.2 + wk.1) % w32
  let t2 := (bsig0 s.a + maj s.a s.b s.c) % w32
  ⟨add32 t1 t2, s.a, s.b, s.c, add32 s.d t1, s.e, s.f, s.g⟩

/-- Compress one 64-byte block into the chaining value. -/
def compress (hv : List Nat) (block : List Nat) : List Nat :=
  let ws := extendW (bytesToWords block) 48
  let s0 : St := ⟨hv.getD 0 0, hv.getD 1 0, hv.getD 2 0, hv.getD 3 0,
                  hv.getD 4 0, hv.getD 5 0, hv.getD 6 0, hv.getD 7 0⟩
  let s := (ws.zip K).foldl round1 s0
  [add32 (hv.getD 0 0) s.a, add32 (hv.getD 1 0) s.b,
   add32 (hv.getD 2 0) s.c, add32 (hv.getD 3 0) s.d,
   add32 (hv.getD 4 0) s.e, add32 (hv.getD 5 0) s.f,
   add32 (hv.getD 6 0) s.g, add32 (hv.getD 7 0) s.h]

/-- SHA-256 digest of a byte string, as 32 bytes. -/
def sha256 (msg : List Nat) : List Nat :=
  let hv := (toBlocks (pad msg)).foldl compress H0
  (hv.map (natToBytesBE 4)).flatten

/-- Lowercase hex digit. -/
def hexDigit (n : Nat) : Char :=
  if n < 10 then Char.ofNat (48 + n) else Char.ofNat (87 + n)

/-- Lowercase hex rendering of a byte string, as `hexdigest` produces. -/
def toHex (bytes : List Nat) : List Char :=
  (bytes.map (fun b => [hexDigit (b / 16), hexDigit (b % 16)])).flatten

/-- UTF-8 encoding of one code point. -/
def utf8Char (c : Char) : List Nat :=
  let n := c.toNat
  if n < 0x80 then [n]
  else if n < 0x800 then [0xC0 + n / 64, 0x80 + n % 64]
  else if n < 0x10000 then
    [0xE0 + n / 4096, 0x80 + (n / 64) % 64, 0x80 + n % 64]
  else
    [0xF0 + n / 262144, 0x80 + (n / 4096) % 64, 0x80 + (n / 64) % 64,
     0x80 + n % 64]

/-- UTF-8 encoding of a string. -/
def utf8 (s : List Char) : List Nat := (s.map utf8Char).flatten

end MSPMetro.Sha256

namespace MSPMetro

/-- Embedding of `ingest._sha256_text`: the lowercase SHA-256 hex digest of the
UTF-8 encoding of a text. -/
def sha256_text (s : List Char) : List Char := Sha256.toHex (Sha256.sha256 (Sha256.utf8 s))

end MSPMetro

namespace MSPMetro.TextClean

/-!
Embedding of `text_clean.strip_markup_to_text` and its helper regexes.
Each `re.sub(pattern, " ", s)` call is modelled by a left-to-right scanner
that, like CPython's `re.sub`, repeatedly finds the leftmost non-overlapping
match and replaces it with one space.  Matchers receive the character just
before the current position (for `\b` and `(?:^|\s)`) and return the length
of the match at the current position, if any.
-/

/-- The apostrophe character, used by the attribute-value regexes. -/
def squote : Char := Char.ofNat 39

/-- ASCII-case-insensitive comparison of an input character against a
lowercase pattern character (pattern alphabets here are ASCII). -/
def ciChar (c p : Char) : Bool := c.toLower == p

/-- Match a lowercase pattern case-insensitively as a prefix of the input,
returning the remainder of the input. -/
def ciPre : List Char → List Char → Option (List Char)
  | [], l => some l
  | _, [] => none
  | p :: ps, c :: cs => if ciChar c p then ciPre ps cs else none

/-- Remainder of the input after the first (case-insensitive) occurrence of a
pattern — the lazy `.*?pattern` idiom. -/
def afterSub (pat : List Char) : List Char → Option (List Char)
  | [] => none
  | c :: cs =>
    match ciPre pat (c :: cs) with
    | some r => some r
    | none => afterSub pat cs

/-- One generic substitution step with fuel (the fuel starts at the length of
the list and each step consumes at least one character, so it never runs
out).  A match of length `n + 1` is replaced by a single space, after which
scanning resumes past the match, remembering the last matched character as
the new preceding character. -/
def reSubF (m : Option Char → List Char → Option Nat) :
    Nat → Option Char → List Char → List Char
  | 0, _, l => l
  | _, _, [] => []
  | fuel + 1, prev, c :: rest =>
    match m prev (c :: rest) with
    | some (n + 1) =>
      ' ' :: reSubF m fuel (some ((c :: rest).getD n c)) (rest.drop n)
    | _ => c :: reSubF m fuel (some c) rest

/-- `re.sub(pattern, " ", s)` for a matcher `m`. -/
def reSub (m : Option Char → List Char → Option Nat) (l : List Char) : List Char :=
  reSubF m l.length none l

/-- Match length extracted from a remainder-returning matcher. -/
def lenOfRest (l : List Char) (r : Option (List Char)) : Option Nat :=
  r.map (fun rest => l.length - rest.length)

/-- Matcher for `<(script|style)[^>]*>.*?</\1>` (IGNORECASE, DOTALL) at one
tag alternative: `<tag`, then characters other than `>`, then `>`, then the
lazily-nearest matching `</tag>`. -/
def scriptStyleTag (tag : List Char) (l : List Char) : Option (List Char) :=
  (ciPre ('<' :: tag) l).bind fun r1 =>
    match r1.dropWhile (fun c => !(c == '>')) with
    | _ :: r2 => afterSub ('<' :: '/' :: (tag ++ ['>'])) r2
    | [] => none

/-- Matcher for `_SCRIPT_STYLE_RE`, trying `script` before `style` as the
alternation does. -/
def scriptStyleM (_ : Option Char) (l : List Char) : Option Nat :=
  lenOfRest l ((scriptStyleTag (str "script") l).orElse fun _ =>
    scriptStyleTag (str "style") l)

/-- Matcher for `_WELL_FORMED_TAG_RE`, the pattern `<[^>]*>`. -/
def wellFormedTagM (_ : Option Char) (l : List Char) : Option Nat :=
  match l with
  | c :: rest =>
    if c == '<' then
      lenOfRest l (match rest.dropWhile (fun x => !(x == '>')) with
        | _ :: r2 => some r2
        | [] => none)
    else none
  | [] => none

/-- First character class of `_TAG_FRAGMENT_RE`: `[A-Za-z!/]`. -/
def isTagFragStart (c : Char) : Bool := c.isAlpha || c == '!' || c == '/'

/-- Matcher for `_TAG_FRAGMENT_RE`, the pattern `<[A-Za-z!/][^>\n]{0,5000}`,
with the greedy bounded repetition. -/
def tagFragmentM (_ : Option Char) (l : List Char) : Option Nat :=
  match l with
  | c :: c2 :: rest =>
    if c == '<' && isTagFragStart c2 then
      some (2 + min 5000 (rest.takeWhile (fun x => !(x == '>') && !(x == '\n'))).length)
    else none
  | _ => none

/-- Number of newline characters in a list. -/
def nlCount (l : List Char) : Nat := l.count '\n'

/-- Condition under which `<[^\n]*$` matches starting at a `<` whose tail is
`rest`: the tail contains no newline, or its only newline is its final
character (where `$` also matches). -/
def ltTailOk (rest : List Char) : Bool :=
  nlCount rest == 0 || (nlCount rest == 1 && rest.getLast? == some '\n')

/-- `re.sub(r"<[^\n]*$", " ", s)`: the leftmost `<` whose tail satisfies
`ltTailOk` starts the match, which runs to the end of the string (stopping
before a final newline), and is replaced by one space. -/
def ltToEndSub : List Char → List Char
  | [] => []
  | c :: rest =>
    if c == '<' && ltTailOk rest then
      ' ' :: (if nlCount rest == 1 then ['\n'] else [])
    else c :: ltToEndSub rest

/-- Regex `\w` approximated by ASCII alphanumerics and underscore; the
Python class also contains non-ASCII letters and digits, which only affects
where the garbage regexes see a word boundary. -/
def isWordChar (c : Char) : Bool := c.isAlphanum || c == '_'

/-- Parser for `\s*=\s*`. -/
def eqSignP (l : List Char) : Option (List Char) :=
  match l.dropWhile isPySpace with
  | c :: cs => if c == '=' then some (cs.dropWhile isPySpace) else none
  | [] => none

/-- Parser for `"[^"]*"`. -/
def dquoteP (l : List Char) : Option (List Char) :=
  match l with
  | c :: rest =>
    if c == '"' then
      match rest.dropWhile (fun x => !(x == '"')) with
      | _ :: r => some r
      | [] => none
    else none
  | [] => none

/-- Parser for the single-quoted alternative. -/
def squoteP (l : List Char) : Option (List Char) :=
  match l with
  | c :: rest =>
    if c == squote then
      match rest.dropWhile (fun x => !(x == squote)) with
      | _ :: r => some r
      | [] => none
    else none
  | [] => none

/-- Parser for `[^\s]+`. -/
def bareValueP (l : List Char) : Option (List Char) :=
  match l with
  | c :: cs =>
    if isPySpace c then none else some (cs.dropWhile (fun x => !(isPySpace x)))
  | [] => none

/-- Parser for an attribute value, trying the double-quoted, single-quoted
and bare alternatives in the order the regexes list them. -/
def valueP (l : List Char) : Option (List Char) :=
  (dquoteP l).orElse fun _ => (squoteP l).orElse fun _ => bareValueP l

/-- Parser for `\s+`. -/
def ws1P (l : List Char) : Option (List Char) :=
  match l with
  | c :: cs => if isPySpace c then some (cs.dropWhile isPySpace) else none
  | [] => none

/-- Parser for the attribute name class `[a-z][a-z0-9:_-]*` (IGNORECASE). -/
def attrNameP (l : List Char) : Option (List Char) :=
  match l with
  | c :: cs =>
    if c.isAlpha then
      some (cs.dropWhile (fun x => x.isAlphanum || x == ':' || x == '_' || x == '-'))
    else none
  | [] => none

/-- One repetition `\s+[a-z][a-z0-9:_-]*\s*=\s*(value)` of the trailing
attribute group of `_IMG_ATTR_GARBAGE_RE`. -/
def attrRepP (l : List Char) : Option (List Char) :=
  (ws1P l).bind fun r1 => (attrNameP r1).bind fun r2 => (eqSignP r2).bind valueP

/-- Greedy bounded repetition `{0,60}` of the attribute group; returns the
remainder after as many repetitions as match. -/
def attrReps : Nat → List Char → List Char
  | 0, l => l
  | n + 1, l =>
    match attrRepP l with
    | some r => attrReps n r
    | none => l

/-- Parser for the trailing quote of `["']?`. -/
def qOptTail (l : List Char) : List Char :=
  match l with
  | c :: cs => if c == '"' || c == squote then cs else l
  | [] => l

/-- Parser for `\d{1,5}["']?` (greedy, at most five digits). -/
def digitsP (l : List Char) : Option (List Char) :=
  match l with
  | c :: _ =>
    if c.isDigit then
      some (qOptTail (l.drop (min 5 (l.takeWhile Char.isDigit).length)))
    else none
  | [] => none

/-- Parser for `["']?\d{1,5}["']?`: a leading quote is consumed only when
digits follow it, exactly as the backtracking alternatives resolve. -/
def qDigitsP (l : List Char) : Option (List Char) :=
  match l with
  | c :: cs => if c == '"' || c == squote then digitsP cs else digitsP (c :: cs)
  | [] => none

/-- Parser for the body of `_IMG_ATTR_GARBAGE_RE` after its `(?:^|\s)`
anchor: `img\s+width\s*=\s*["']?\d{1,5}["']?` followed by up to sixty
attribute repetitions. -/
def imgBodyP (l : List Char) : Option (List Char) :=
  (ciPre (str "img") l).bind fun r1 =>
    (ws1P r1).bind fun r2 =>
      (ciPre (str "width") r2).bind fun r3 =>
        (eqSignP r3).bind fun r4 =>
          (qDigitsP r4).map (attrReps 60)

/-- Matcher for `_IMG_ATTR_GARBAGE_RE`: the `^` alternative applies only at
the very start (no preceding character); otherwise a whitespace character is
consumed as part of the match. -/
def imgAttrM (prev : Option Char) (l : List Char) : Option Nat :=
  lenOfRest l
    ((match prev with
      | none => imgBodyP l
      | some _ => none).orElse fun _ =>
      match l with
      | c :: cs => if isPySpace c then (imgBodyP cs) else none
      | [] => none)

/-- The attribute keywords of `_ATTR_GARBAGE_RE`, in alternation order. -/
def attrKeywords : List (List Char) :=
  [str "srcset", str "src", str "sizes", str "decoding", str "loading",
   str "fetchpriority", str "referrerpolicy"]

/-- Try the keyword alternatives in order, each followed by
`\s*=\s*(value)`. -/
def attrKeyP (kws : List (List Char)) (l : List Char) : Option (List Char) :=
  match kws with
  | [] => none
  | kw :: rest =>
    match (ciPre kw l).bind fun r => (eqSignP r).bind valueP with
    | some r => some r
    | none => attrKeyP rest l

/-- Word-boundary test for a match starting with a word character: the
previous character must be absent or a non-word character. -/
def boundaryBefore (prev : Option Char) (l : List Char) : Bool :=
  (match l with
   | c :: _ => isWordChar c
   | [] => false) &&
  (match prev with
   | none => true
   | some p => !isWordChar p)

/-- Matcher for `_ATTR_GARBAGE_RE` (a `\b` then a keyword then
`\s*=\s*(value)`). -/
def attrGarbageM (prev : Option Char) (l : List Char) : Option Nat :=
  if boundaryBefore prev l then lenOfRest l (attrKeyP attrKeywords l) else none

/-- The WordPress image-class keywords of `_WP_IMG_GARBAGE_RE`. -/
def wpKeywords : List (List Char) :=
  [str "wp-post-image", str "attachment-rss-image-size", str "size-rss-image-size"]

/-- Try the WordPress keywords, requiring a trailing word boundary. -/
def wpKeyP (kws : List (List Char)) (l : List Char) : Option (List Char) :=
  match kws with
  | [] => none
  | kw :: rest =>
    match ciPre kw l with
    | some r =>
      if (match r with
          | c :: _ => !isWordChar c
          | [] => true) then some r
      else wpKeyP rest l
    | none => wpKeyP rest l

/-- Matcher for `_WP_IMG_GARBAGE_RE` (`\b(?:keywords)\b`, IGNORECASE). -/
def wpImgM (prev : Option Char) (l : List Char) : Option Nat :=
  if boundaryBefore prev l then lenOfRest l (wpKeyP wpKeywords l) else none

/-- Matcher for `\s+` (the final whitespace-collapsing substitution). -/
def wsRunM (_ : Option Char) (l : List Char) : Option Nat :=
  match l with
  | c :: cs =>
    if isPySpace c then some ((cs.takeWhile isPySpace).length + 1) else none
  | [] => none

end MSPMetro.TextClean

namespace MSPMetro.TextClean

/-!
Embedding of `html.unescape`, the first step of `strip_markup_to_text`.
CPython replaces every match of
`&(#[0-9]+;?|#[xX][0-9a-fA-F]+;?|[^\t\n\f <&#;]{1,32};?)` using
`_replace_charref`.  Numeric references follow the `_invalid_charrefs` /
`_invalid_codepoints` tables exactly; the named-reference table below
carries the common subset of the 2000-entry HTML5 table (longest-matching
semantics are implemented faithfully, and every value is at most two
characters, as in the full table).
-/

/-- Character class of a named reference body: `[^\t\n\f <&#;]`. -/
def isNameChar (c : Char) : Bool :=
  !(c == '\t' || c == '\n' || c == Char.ofNat 0x0C || c == ' ' || c == '<' ||
    c == '&' || c == '#' || c == ';')

/-- Numeric value of a decimal digit string. -/
def decVal (l : List Char) : Nat := l.foldl (fun a c => a * 10 + (c.toNat - 48)) 0

/-- Numeric value of one hex digit. -/
def hexVal1 (c : Char) : Nat :=
  if c.isDigit then c.toNat - 48
  else if c ≤ 'F' then c.toNat - 55 else c.toNat - 87

/-- Numeric value of a hex digit string. -/
def hexVal (l : List Char) : Nat := l.foldl (fun a c => a * 16 + hexVal1 c) 0

/-- Hex digit class `[0-9a-fA-F]`. -/
def isHexDigit (c : Char) : Bool :=
  c.isDigit || ('a' ≤ c && c ≤ 'f') || ('A' ≤ c && c ≤ 'F')

/-- The `html._invalid_charrefs` table: Windows-1252 interpretations of the
C1 block plus NUL and CR. -/
def invalidCharref (n : Nat) : Option Char :=
  if n == 0x00 then some (Char.ofNat 0xFFFD)
  else if n == 0x0D then some (Char.ofNat 0x0D)
  else if n == 0x80 then some (Char.ofNat 0x20AC)
  else if n == 0x81 then some (Char.ofNat 0x81)
  else if n == 0x82 then some (Char.ofNat 0x201A)
  else if n == 0x83 then some (Char.ofNat 0x192)
  else if n == 0x84 then some (Char.ofNat 0x201E)
  else if n == 0x85 then some (Char.ofNat 0x2026)
  else if n == 0x86 then some (Char.ofNat 0x2020)
  else if n == 0x87 then some (Char.ofNat 0x2021)
  else if n == 0x88 then some (Char.ofNat 0x2C6)
  else if n == 0x89 then some (Char.ofNat 0x2030)
  else if n == 0x8A then some (Char.ofNat 0x160)
  else if n == 0x8B then some (Char.ofNat 0x2039)
  else if n == 0x8C then some (Char.ofNat 0x152)
  else if n == 0x8D then some (Char.ofNat 0x8D)
  else if n == 0x8E then some (Char.ofNat 0x17D)
  else if n == 0x8F then some (Char.ofNat 0x8F)
  else if n == 0x90 then some (Char.ofNat 0x90)
  else if n == 0x91 then some (Char.ofNat 0x2018)
  else if n == 0x92 then some (Char.ofNat 0x2019)
  else if n == 0x93 then some (Char.ofNat 0x201C)
  else if n == 0x94 then some (Char.ofNat 0x201D)
  else if n == 0x95 then some (Char.ofNat 0x2022)
  else if n == 0x96 then some (Char.ofNat 0x2013)
  else if n == 0x97 then some (Char.ofNat 0x2014)
  else if n == 0x98 then some (Char.ofNat 0x2DC)
  else if n == 0x99 then some (Char.ofNat 0x2122)
  else if n == 0x9A then some (Char.ofNat 0x161)
  else if n == 0x9B then some (Char.ofNat 0x203A)
  else if n == 0x9C then some (Char.ofNat 0x153)
  else if n == 0x9D then some (Char.ofNat 0x9D)
  else if n == 0x9E then some (Char.ofNat 0x17E)
  else if n == 0x9F then some (Char.ofNat 0x178)
  else none

/-- The `html._invalid_codepoints` set (control ranges and noncharacters),
whose members unescape to the empty string. -/
def invalidCodepoint (n : Nat) : Bool :=
  (1 ≤ n && n ≤ 8) || (0x0E ≤ n && n ≤ 0x1F) || (0x7F ≤ n && n ≤ 0x9F) ||
  (0xFDD0 ≤ n && n ≤ 0xFDEF) || n % 0x10000 == 0xFFFE || n % 0x10000 == 0xFFFF

/-- Replacement text of a numeric character reference. -/
def numRepl (num : Nat) : List Char :=
  match invalidCharref num with
  | some c => [c]
  | none =>
    if (0xD800 ≤ num && num ≤ 0xDFFF) || num > 0x10FFFF then [Char.ofNat 0xFFFD]
    else if invalidCodepoint num then []
    else [Char.ofNat num]

/-- Common subset of the HTML5 named-reference table, with the historical
semicolon-less spellings the full table also carries. -/
def html5Table : List (List Char × List Char) :=
  [(str "amp;", str "&"), (str "amp", str "&"), (str "AMP;", str "&"),
   (str "AMP", str "&"), (str "lt;", str "<"), (str "lt", str "<"),
   (str "LT;", str "<"), (str "LT", str "<"), (str "gt;", str ">"),
   (str "gt", str ">"), (str "GT;", str ">"), (str "GT", str ">"),
   (str "quot;", str "\""), (str "quot", str "\""), (str "QUOT;", str "\""),
   (str "QUOT", str "\""), (str "apos;", [squote]),
   (str "nbsp;", [Char.ofNat 0xA0]), (str "nbsp", [Char.ofNat 0xA0]),
   (str "copy;", [Char.ofNat 0xA9]), (str "copy", [Char.ofNat 0xA9]),
   (str "reg;", [Char.ofNat 0xAE]), (str "reg", [Char.ofNat 0xAE]),
   (str "deg;", [Char.ofNat 0xB0]), (str "deg", [Char.ofNat 0xB0]),
   (str "plusmn;", [Char.ofNat 0xB1]), (str "plusmn", [Char.ofNat 0xB1]),
   (str "middot;", [Char.ofNat 0xB7]), (str "middot", [Char.ofNat 0xB7]),
   (str "laquo;", [Char.ofNat 0xAB]), (str "laquo", [Char.ofNat 0xAB]),
   (str "raquo;", [Char.ofNat 0xBB]), (str "raquo", [Char.ofNat 0xBB]),
   (str "times;", [Char.ofNat 0xD7]), (str "times", [Char.ofNat 0xD7]),
   (str "divide;", [Char.ofNat 0xF7]), (str "divide", [Char.ofNat 0xF7]),
   (str "sect;", [Char.ofNat 0xA7]), (str "sect", [Char.ofNat 0xA7]),
   (str "para;", [Char.ofNat 0xB6]), (str "para", [Char.ofNat 0xB6]),
   (str "szlig;", [Char.ofNat 0xDF]), (str "szlig", [Char.ofNat 0xDF]),
   (str "agrave;", [Char.ofNat 0xE0]), (str "agrave", [Char.ofNat 0xE0]),
   (str "eacute;", [Char.ofNat 0xE9]), (str "eacute", [Char.ofNat 0xE9]),
   (str "iquest;", [Char.ofNat 0xBF]), (str "iquest", [Char.ofNat 0xBF]),
   (str "iexcl;", [Char.ofNat 0xA1]), (str "iexcl", [Char.ofNat 0xA1]),
   (str "cent;", [Char.ofNat 0xA2]), (str "cent", [Char.ofNat 0xA2]),
   (str "pound;", [Char.ofNat 0xA3]), (str "pound", [Char.ofNat 0xA3]),
   (str "yen;", [Char.ofNat 0xA5]), (str "yen", [Char.ofNat 0xA5]),
   (str "euro;", [Char.ofNat 0x20AC]),
   (str "trade;", [Char.ofNat 0x2122]), (str "trade", [Char.ofNat 0x2122]),
   (str "hellip;", [Char.ofNat 0x2026]),
   (str "mdash;", [Char.ofNat 0x2014]), (str "ndash;", [Char.ofNat 0x2013]),
   (str "lsquo;", [Char.ofNat 0x2018]), (str "rsquo;", [Char.ofNat 0x2019]),
   (str "ldquo;", [Char.ofNat 0x201C]), (str "rdquo;", [Char.ofNat 0x201D]),
   (str "bull;", [Char.ofNat 0x2022]), (str "dagger;", [Char.ofNat 0x2020]),
   (str "permil;", [Char.ofNat 0x2030]), (str "prime;", [Char.ofNat 0x2032]),
   (str "Prime;", [Char.ofNat 0x2033]), (str "frasl;", [Char.ofNat 0x2044]),
   (str "oline;", [Char.ofNat 0x203E]), (str "larr;", [Char.ofNat 0x2190]),
   (str "uarr;", [Char.ofNat 0x2191]), (str "rarr;", [Char.ofNat 0x2192]),
   (str "darr;", [Char.ofNat 0x2193]), (str "harr;", [Char.ofNat 0x2194]),
   (str "minus;", [Char.ofNat 0x2212]), (str "lowast;", [Char.ofNat 0x2217]),
   (str "radic;", [Char.ofNat 0x221A]), (str "infin;", [Char.ofNat 0x221E]),
   (str "cap;", [Char.ofNat 0x2229]), (str "cup;", [Char.ofNat 0x222A]),
   (str "ne;", [Char.ofNat 0x2260]), (str "equiv;", [Char.ofNat 0x2261]),
   (str "le;", [Char.ofNat 0x2264]), (str "ge;", [Char.ofNat 0x2265]),
   (str "loz;", [Char.ofNat 0x25CA]), (str "spades;", [Char.ofNat 0x2660]),
   (str "clubs;", [Char.ofNat 0x2663]), (str "hearts;", [Char.ofNat 0x2665]),
   (str "diams;", [Char.ofNat 0x2666])]

/-- Direct lookup of a matched reference body in the table. -/
def namedLookup (s : List Char) : Option (List Char) :=
  (html5Table.find? (fun kv => kv.1 == s)).map (fun kv => kv.2)

/-- Longest-matching fallback of `_replace_charref`: try the proper
initial segments of the body from the longest (one less than the whole,
which was already tried) down to length two. -/
def namedFallback : Nat → List Char → Option (List Char)
  | 0, _ => none
  | 1, _ => none
  | x + 2, s =>
    match namedLookup (s.take (x + 2)) with
    | some v => some (v ++ s.drop (x + 2))
    | none => namedFallback (x + 1) s

/-- Replacement text for a named reference whose matched body is `s`
(including a trailing semicolon when one was matched). -/
def namedRepl (s : List Char) : List Char :=
  match namedLookup s with
  | some v => v
  | none =>
    match namedFallback (s.length - 1) s with
    | some v => v
    | none => '&' :: s

/-- Match a numeric reference body after `&#`: decimal or hex digits with
an optional semicolon; returns the characters consumed after the `#` and
the replacement text. -/
def numericP (r2 : List Char) : Option (Nat × List Char) :=
  match r2 with
  | x :: r3 =>
    if x == 'x' || x == 'X' then
      let hs := r3.takeWhile isHexDigit
      if hs = [] then none
      else
        let semi := ((r3.drop hs.length).head?) == some ';'
        some (1 + hs.length + (if semi then 1 else 0), numRepl (hexVal hs))
    else
      let ds := r2.takeWhile Char.isDigit
      if ds = [] then none
      else
        let semi := ((r2.drop ds.length).head?) == some ';'
        some (ds.length + (if semi then 1 else 0), numRepl (decVal ds))
  | [] => none

/-- Match a named reference body after `&`: up to 32 name-class characters
and an optional semicolon; returns the characters consumed and the
replacement text. -/
def namedP (rest : List Char) : Option (Nat × List Char) :=
  let run := rest.takeWhile isNameChar
  let t := run.take 32
  if t = [] then none
  else
    if ((rest.drop t.length).head?) == some ';' then
      some (t.length + 1, namedRepl (t ++ [';']))
    else some (t.length, namedRepl t)

/-- Match one character reference immediately after an ampersand; returns
the number of characters consumed after the `&` and the replacement text of
the whole match. -/
def charrefP (rest : List Char) : Option (Nat × List Char) :=
  match rest with
  | c :: r2 =>
    if c = '#' then (numericP r2).map (fun p => (p.1 + 1, p.2))
    else namedP rest
  | [] => none

/-- Scanner of `html.unescape`, with fuel (one character is consumed per
step, so fuel equal to the length suffices). -/
def unescapeF : Nat → List Char → List Char
  | 0, l => l
  | _, [] => []
  | fuel + 1, c :: rest =>
    if c == '&' then
      match charrefP rest with
      | some (n, repl) => repl ++ unescapeF fuel (rest.drop n)
      | none => '&' :: unescapeF fuel rest
    else c :: unescapeF fuel rest

/-- Embedding of `html.unescape`. -/
def htmlUnescape (l : List Char) : List Char := unescapeF l.length l

/-- Lines 31–39 of `text_clean.py` after the unescape: replace NBSP by a
space, drop script and style elements, well-formed tags, trailing open
angle bracket runs and dangling tag fragments. -/
def tagScrub (l : List Char) : List Char :=
  reSub tagFragmentM (ltToEndSub (reSub wellFormedTagM (reSub scriptStyleM
    (l.map (fun c => if c == Char.ofNat 0xA0 then ' ' else c)))))

/-- Line 41: any remaining angle bracket becomes a space. -/
def angleScrub (l : List Char) : List Char :=
  l.map (fun c => if c == '<' || c == '>' then ' ' else c)

/-- Lines 44–46: the image-attribute garbage substitutions. -/
def garbageScrub (l : List Char) : List Char :=
  reSub wpImgM (reSub attrGarbageM (reSub imgAttrM l))

/-- Lines 49–51: drop control and format characters, then replace the two
bad-decode sentinels with spaces. -/
def controlScrub (l : List Char) : List Char :=
  (l.filter (fun c => !(isCcOrCf c))).map (fun c =>
    if c == Char.ofNat 0xFFFD || c == Char.ofNat 0xFFFC then ' ' else c)

/-- Everything of `strip_markup_to_text` before the final whitespace
collapse, in source order. -/
def preClean (s : List Char) : List Char :=
  controlScrub (garbageScrub (angleScrub (tagScrub (htmlUnescape s))))

/-- Embedding of `text_clean.strip_markup_to_text`, stage by stage in the
order of the source: the scrub stages, then line 53's whitespace collapse
and strip. -/
def strip_markup_to_text (s : List Char) : List Char :=
  if s = [] then [] else pyStrip (reSub wsRunM (preClean s))

end MSPMetro.TextClean

namespace MSPMetro.Ingest

open MSPMetro

/-!
Embedding of the store-facing operations of
`backend/src/mspmetro_backend/ingest.py`.  Database rows become Lean
structures, the session becomes an explicit list of rows, and wall-clock
instants (`datetime.now`) are abstract `Nat` timestamps supplied by the
caller.  `query(...).one_or_none()` is modelled faithfully: zero matches
select nothing, one match selects it, and more than one raises — embedded
as `Option.none` on the operation's result.
-/

/-- The `AlertSeverity` enumeration of `models.py`. -/
inductive AlertSeverity
  | INFO
  | ADVISORY
  | WARNING
  | EMERGENCY
deriving DecidableEq, Repr

/-- The `ScopeKind` enumeration of `models.py`. -/
inductive ScopeKind
  | REGION
  | COUNTY
  | NEIGHBORHOOD
  | CITY
  | CUSTOM
deriving DecidableEq, Repr

/-- Embedding of `ingest._map_nws_severity`: strip and lowercase, then the
fixed lookup (the NWS severity words are ASCII, so character-wise ASCII
lowercasing coincides with Python `str.lower` on every scrutinised word). -/
def map_nws_severity (nws : Option (List Char)) : AlertSeverity :=
  let v := (pyStrip (orEmpty nws)).map Char.toLower
  if v = str "extreme" then .EMERGENCY
  else if v = str "severe" then .WARNING
  else if v = str "moderate" then .ADVISORY
  else .INFO

/-- An `alerts` table row, with the columns `ingest_nws_alerts` touches. -/
structure Alert where
  severity : AlertSeverity
  title : List Char
  body : List Char
  scope_kind : ScopeKind
  scope_ref : List Char
  trigger_url : List Char
  language_profile : AlertSeverity
  created_at : Nat
  updated_at : Nat
  expires_at : Option Nat
deriving DecidableEq, Repr

/-- Outcome of one upsert. -/
inductive UpsertOutcome
  | inserted
  | updated
deriving DecidableEq, Repr

/-- Replace the first list element satisfying `p` by `f` of it. -/
def updateFirst (p : α → Bool) (f : α → α) : List α → List α
  | [] => []
  | x :: rest => if p x then f x :: rest else x :: updateFirst p f rest

/-- Embedding of the Alert branch of `ingest_nws_alerts` (lines 359–385)
for one feature: the severity string is mapped by `_map_nws_severity`; the
row is selected by `trigger_url` alone via `one_or_none` (`none` models the
exception raised on more than one match); an existing row has every
touched field overwritten, a missing row is inserted.  `expires_at` is the
already-parsed `_parse_dt(expires) or _parse_dt(ends)` value. -/
def upsertNwsAlert (alerts : List Alert) (now : Nat) (scope_ref : List Char)
    (trigger_url title body : List Char) (sevStr : Option (List Char))
    (expires_at : Option Nat) : Option (List Alert × UpsertOutcome) :=
  let severity := map_nws_severity sevStr
  match alerts.filter (fun a => a.trigger_url == trigger_url) with
  | [] =>
    some (alerts ++
      [{ severity := severity, title := title, body := body,
         scope_kind := .REGION, scope_ref := scope_ref,
         trigger_url := trigger_url, language_profile := severity,
         created_at := now, updated_at := now, expires_at := expires_at }],
      .inserted)
  | [_] =>
    some (updateFirst (fun a => a.trigger_url == trigger_url)
      (fun a =>
        { a with severity := severity, title := title, body := body,
                 scope_kind := .REGION, scope_ref := scope_ref,
                 language_profile := severity, updated_at := now,
                 expires_at := expires_at }) alerts,
      .updated)
  | _ => none

/-- An `items` table row, with the columns the RSS/Atom reconcile step
touches.  Fields the update dictionary guards with `value is not None` are
stored as options. -/
structure Item where
  source_id : Nat
  endpoint_id : Nat
  external_id : List Char
  published_at : Option Nat
  updated_at : Option Nat
  title : Option (List Char)
  author : Option (List Char)
  canonical_url : Option (List Char)
  summary : Option (List Char)
  content_text : Option (List Char)
  content_html : Option (List Char)
  raw_json : Option (List Char × List Char)
  hash_content : Option (List Char)
deriving DecidableEq, Repr

/-- One entry after the normalisation of lines 433–447 of `ingest.py`:
`title`, `author`, `summary`, `content_text` are the stripped optional
texts, `content_html` the raw (pre-strip) feed markup, possibly empty. -/
structure CleanEntry where
  external_id : List Char
  title : Option (List Char)
  url : Option (List Char)
  author : Option (List Char)
  published_at : Option Nat
  summary : Option (List Char)
  content_html : List Char
  content_text : Option (List Char)
deriving DecidableEq, Repr

/-- The string hashed at line 451:
`"\n".join([title or "", summary or "", content_html or ""])`. -/
def hash_input (title summary : Option (List Char)) (content_html : List Char) :
    List Char :=
  orEmpty title ++ '\n' :: (orEmpty summary ++ '\n' :: content_html)

/-- The content hash of line 451: `_sha256_text` of the newline-joined
title, summary and raw markup. -/
def item_hash_content (title summary : Option (List Char))
    (content_html : List Char) : List Char :=
  sha256_text (hash_input title summary content_html)

/-- Stated from the claim's wording, for comparison with the source: the
SHA-256 digest of the plain (separator-free) concatenation of the three
hashed fields, each defaulted to the empty string. -/
def claimedConcatHash (title summary : Option (List Char))
    (content_html : List Char) : List Char :=
  sha256_text (orEmpty title ++ orEmpty summary ++ content_html)

/-- One guarded assignment of the update loop (lines 454–468):
`if getattr(existing, attr) != value and value is not None: setattr(...)`.
The stored field keeps its value unless the new value differs and is
non-null. -/
def mergeVal [DecidableEq α] (stored newv : Option α) : Option α :=
  if stored ≠ newv ∧ newv ≠ none then newv else stored

/-- Whether the guarded assignment of `mergeVal` fired, the contribution of
one field to the `changed` flag. -/
def mergeChanged [DecidableEq α] (stored newv : Option α) : Bool :=
  decide (stored ≠ newv ∧ newv ≠ none)

/-- Outcome of one reconcile step. -/
inductive ReconcileOutcome
  | inserted
  | updated
  | unchanged
deriving DecidableEq, Repr

/-- The update path of the reconcile step: the field dictionary of lines
454–465 applied in order through `mergeField`, with the accumulated
`changed` flag. -/
def updateItem (now : Nat) (e : CleanEntry) (raw : List Char × List Char)
    (it : Item) : Item × Bool :=
  let hc := item_hash_content e.title e.summary e.content_html
  ({ it with
     updated_at := mergeVal it.updated_at (some now),
     title := mergeVal it.title e.title,
     author := mergeVal it.author e.author,
     canonical_url := mergeVal it.canonical_url e.url,
     summary := mergeVal it.summary e.summary,
     content_text := mergeVal it.content_text e.content_text,
     content_html := mergeVal it.content_html (noneIfEmpty e.content_html),
     raw_json := mergeVal it.raw_json (some raw),
     hash_content := mergeVal it.hash_content (some hc),
     published_at := mergeVal it.published_at e.published_at },
   mergeChanged it.updated_at (some now) ||
   mergeChanged it.title e.title ||
   mergeChanged it.author e.author ||
   mergeChanged it.canonical_url e.url ||
   mergeChanged it.summary e.summary ||
   mergeChanged it.content_text e.content_text ||
   mergeChanged it.content_html (noneIfEmpty e.content_html) ||
   mergeChanged it.raw_json (some raw) ||
   mergeChanged it.hash_content (some hc) ||
   mergeChanged it.published_at e.published_at)

/-- The insert path of the reconcile step (lines 472–489). -/
def insertItem (source_id endpoint_id : Nat) (now : Nat) (e : CleanEntry)
    (raw : List Char × List Char) : Item :=
  { source_id := source_id, endpoint_id := endpoint_id,
    external_id := e.external_id, published_at := e.published_at,
    updated_at := some now, title := e.title, author := e.author,
    canonical_url := e.url, summary := e.summary,
    content_text := e.content_text,
    content_html := noneIfEmpty e.content_html, raw_json := some raw,
    hash_content := some (item_hash_content e.title e.summary e.content_html) }

/-- Replace the first item satisfying `p` through the flag-returning update
`f`, propagating the flag. -/
def updateFirstItem (p : Item → Bool) (f : Item → Item × Bool) :
    List Item → List Item × Bool
  | [] => ([], false)
  | it :: rest =>
    if p it then
      let r := f it
      (r.1 :: rest, r.2)
    else
      let r := updateFirstItem p f rest
      (it :: r.1, r.2)

/-- The reconcile step of `ingest_rss_atom` for one clean entry (lines
450–489): select by `(endpoint_id, external_id)` with `one_or_none`
(`none` models the raised exception on a duplicate key), then either merge
into the existing row or insert a fresh one. -/
def reconcileEntry (source_id endpoint_id : Nat) (raw : List Char × List Char)
    (now : Nat) (e : CleanEntry) (store : List Item) :
    Option (List Item × ReconcileOutcome) :=
  let keyed := fun it : Item =>
    it.endpoint_id == endpoint_id && it.external_id == e.external_id
  match store.filter keyed with
  | [] => some (store ++ [insertItem source_id endpoint_id now e raw], .inserted)
  | [_] =>
    let r := updateFirstItem keyed (updateItem now e raw) store
    some (r.1, if r.2 then .updated else .unchanged)
  | _ => none

/-- Result record of `_fetch_bytes`. -/
structure FetchBytesResult where
  status : Nat
  body : List Nat
  etag : Option (List Char)
  last_modified : Option (List Char)
deriving DecidableEq, Repr

/-- The `HTTPError` 304 branch of `_fetch_bytes` (lines 172–176): an empty
body carrying back the request's own validators. -/
def fetch_on_304 (etag last_modified : Option (List Char)) : FetchBytesResult :=
  { status := 304, body := [], etag := etag, last_modified := last_modified }

/-- The validator columns of a `SourceEndpoint` row. -/
structure EndpointState where
  http_etag : Option (List Char)
  http_last_modified : Option (List Char)
deriving DecidableEq, Repr

/-- Python truthiness of an optional string. -/
def truthy (o : Option (List Char)) : Bool :=
  match o with
  | some s => !(s == [])
  | none => false

/-- Lines 416–419 of `ingest_rss_atom`: a truthy, different returned
validator replaces the stored one. -/
def applyValidators (ep : EndpointState) (f : FetchBytesResult) : EndpointState :=
  let ep1 := if truthy f.etag ∧ f.etag ≠ ep.http_etag then
    { ep with http_etag := f.etag } else ep
  if truthy f.last_modified ∧ f.last_modified ≠ ep1.http_last_modified then
    { ep1 with http_last_modified := f.last_modified } else ep1

/-- Per-endpoint counters of `ingest_rss_atom`. -/
structure IngestResult where
  inserted : Nat
  updated : Nat
deriving DecidableEq, Repr

/-- The per-endpoint step of `ingest_rss_atom` after a successful fetch
(lines 416–423 and onward): update validators, then short-circuit with no
item work on a 304 or an empty body; otherwise hand the body to the
parse-and-reconcile continuation. -/
def processFetched (parse : List Nat → List Item → List Item × IngestResult)
    (ep : EndpointState) (items : List Item) (f : FetchBytesResult) :
    EndpointState × List Item × IngestResult :=
  let ep1 := applyValidators ep f
  if f.status == 304 || f.body == [] then (ep1, items, ⟨0, 0⟩)
  else
    let r := parse f.body items
    (ep1, r.1, r.2)

/-- Metric tags of the `feed_fetch_error` metric (line 413): the error
string is sliced to 200 characters. -/
def fetch_error_tags (source url err : List Char) : List Char × List Char × List Char :=
  (source, url, pySlice err 200)

/-- Metric tags of the `feed_parse_error` metric (line 429). -/
def parse_error_tags (source url err : List Char) : List Char × List Char × List Char :=
  (source, url, pySlice err 200)

/-- The details blob written for an error-status run (line 536):
`{"error": str(e)}`, with no truncation. -/
def error_run_details (err : List Char) : List Char := err

end MSPMetro.Ingest

namespace MSPMetro.Ingest

/-!
Embedding of the run ledger of `ingest()` (lines 501–541).  The SQLAlchemy
session (`autocommit=False`) separates three visibility levels: rows merely
added to the session, rows flushed into the open transaction, and rows
committed to the store.  A crash rolls back everything not committed, so
the committed rows alone model what survives.  `ingest()` is abstracted to
the sequence of store- and network-relevant events it performs, in source
order.
-/

/-- Run status values of `IngestionRun`. -/
inductive RunStatus
  | running
  | ok
  | error
deriving DecidableEq, Repr

/-- An `ingestion_runs` row: its status and the optional error detail of
its details blob. -/
structure RunRow where
  status : RunStatus
  errDetail : Option (List Char)
deriving DecidableEq, Repr

/-- The events of `ingest()` that matter to run-row visibility. -/
inductive LedgerEv
  | addRun (r : RunRow)
  | flush
  | net
  | addMetric
  | setRunsOk
  | commit
deriving DecidableEq, Repr

/-- Session state: committed rows, rows flushed into the open transaction,
and rows pending in the session. -/
structure LedgerSt where
  committed : List RunRow
  tx : List RunRow
  pend : List RunRow
deriving DecidableEq, Repr

/-- Effect of one event.  `flush` sends pending rows to the open
transaction; `commit` flushes and commits; `setRunsOk` mutates the flushed
run objects (line 521); network and metric events do not touch run rows. -/
def applyEv (st : LedgerSt) (ev : LedgerEv) : LedgerSt :=
  match ev with
  | .addRun r => { st with pend := st.pend ++ [r] }
  | .flush => { st with tx := st.tx ++ st.pend, pend := [] }
  | .net => st
  | .addMetric => st
  | .setRunsOk =>
    { st with tx := st.tx.map (fun r => { r with status := .ok }) }
  | .commit =>
    { committed := st.committed ++ st.tx ++ st.pend, tx := [], pend := [] }

/-- The event sequence of the happy path of `ingest()`: add the `running`
row, flush it, fetch the NWS alerts (network), fetch the feeds (network),
add the two NWS metrics, set the run to `ok`, commit. -/
def ingest_events : List LedgerEv :=
  [.addRun ⟨.running, none⟩, .flush, .net, .net, .addMetric, .addMetric,
   .setRunsOk, .commit]

/-- Session state after the first `k` events of `ingest()`; a crash at that
point preserves exactly the `committed` component. -/
def ledgerAfter (k : Nat) : LedgerSt :=
  (ingest_events.take k).foldl applyEv ⟨[], [], []⟩

/-- Index of the first network event of `ingest_events`. -/
def firstNetIdx : Nat := 2

end MSPMetro.Ingest

namespace MSPMetro.Discover

/-!
Embedding of `scripts/discover_sources.py`'s `DomainLimiter.wait_turn` and
its use in `Fetcher.get_bytes`.  One host's requests serialise through the
limiter's `asyncio.Lock`; a request observes the clock at entry (`now`),
finishes its conditional `asyncio.sleep` at `wake`, reads the clock again
at `now2` when it reschedules `_next_ok = now2 + delay`, and performs its
HTTP send at `send`, after `wait_turn` returns and the global concurrency
semaphore is acquired.  Instants are rationals; `asyncio.sleep` never wakes
early and the clock is monotone.
-/

/-- The limiter's configuration. -/
structure LimiterCfg where
  min_delay : ℚ
  max_delay : ℚ

/-- The observable instants of one `wait_turn` call and of the request it
gates. -/
structure TurnObs where
  now : ℚ
  wake : ℚ
  now2 : ℚ
  delay : ℚ
  send : ℚ

/-- Constraints one `wait_turn` body imposes, given the `_next_ok` value it
reads: sleep until `_next_ok` when the entry clock is earlier (never waking
early), no sleep otherwise; the rescheduling clock read comes after the
wake; the drawn delay lies in `[min_delay, max_delay]` (`random.uniform`
with `min_delay ≤ max_delay`); the send comes after `wait_turn` returns. -/
def turnOk (cfg : LimiterCfg) (prevNextOk : ℚ) (ob : TurnObs) : Prop :=
  (ob.now < prevNextOk → prevNextOk ≤ ob.wake) ∧
  (prevNextOk ≤ ob.now → ob.wake = ob.now) ∧
  ob.now ≤ ob.wake ∧ ob.wake ≤ ob.now2 ∧
  cfg.min_delay ≤ ob.delay ∧ ob.delay ≤ cfg.max_delay ∧
  ob.now2 ≤ ob.send

/-- The `_next_ok` value written by a turn: `time.time() + delay`. -/
def nextOkAfter (ob : TurnObs) : ℚ := ob.now2 + ob.delay

/-- Validity of a serialised sequence of turns for one host: the lock
orders the critical sections, so each turn's entry clock is at or after
the previous turn's rescheduling clock; `_next_ok` starts at `0.0`. -/
def validTrace (cfg : LimiterCfg) : ℚ → ℚ → List TurnObs → Prop
  | _, _, [] => True
  | nextOk, lastT, ob :: rest =>
    lastT ≤ ob.now ∧ turnOk cfg nextOk ob ∧
    validTrace cfg (nextOkAfter ob) ob.now2 rest

end MSPMetro.Discover

namespace MSPMetro.Ingest

/-!
Embedding of the truncation sites named by the specification: the summary
slice of `_parse_feed_xml` (line 227), the stored title and summary of
`ingest_rss_atom` (lines 437 and 443–445), and `_clean_title` of
`static_build.py` (lines 588–594).
-/

/-- The horizontal ellipsis character. -/
def hellip : Char := Char.ofNat 0x2026

/-- The summary field an RSS item carries out of `_parse_feed_xml`:
`(desc or "")[:500] or None`, where `desc` is the stripped element text. -/
def rss_item_summary (desc : List Char) : Option (List Char) :=
  noneIfEmpty (pySlice desc 500)

/-- The stored title of `ingest_rss_atom` line 437:
`_strip_html_to_text((it.get("title") or "").strip()) or None`. -/
def stored_title (itemTitle : Option (List Char)) : Option (List Char) :=
  noneIfEmpty (TextClean.strip_markup_to_text (pyStrip (orEmpty itemTitle)))

/-- The stored summary of `ingest_rss_atom` lines 443–445:
`_strip_html_to_text((it.get("summary") or "").strip()) or None`. -/
def stored_summary (itemSummary : Option (List Char)) : Option (List Char) :=
  noneIfEmpty (TextClean.strip_markup_to_text (pyStrip (orEmpty itemSummary)))

/-- Embedding of `static_build._clean_title`: strip markup, then truncate
to 137 characters, right-strip and append an ellipsis when longer than
140. -/
def clean_title (s : Option (List Char)) : List Char :=
  let t := TextClean.strip_markup_to_text (orEmpty s)
  if t = [] then []
  else if 140 < t.length then pyRstrip (t.take 137) ++ [hellip]
  else t

end MSPMetro.Ingest

namespace MSPMetro

/-- No two adjacent characters are both whitespace. -/
def noTwoSpaces : List Char → Bool
  | a :: b :: t => !(isPySpace a && isPySpace b) && noTwoSpaces (b :: t)
  | _ => true

/-- The first character, if any, is not whitespace. -/
def headNotSpace : List Char → Bool
  | [] => true
  | c :: _ => !(isPySpace c)

/-- The guarantees claimed for `strip_markup_to_text` output: no angle
brackets, no control or format characters, every whitespace character is a
plain space, no two adjacent, none leading or trailing. -/
def cleanOutputOk (r : List Char) : Bool :=
  r.all (fun c =>
    !(c == '<') && !(c == '>') && !(isCcOrCf c) &&
    (!(isPySpace c) || c == ' ')) &&
  noTwoSpaces r && headNotSpace r && headNotSpace r.reverse

end MSPMetro

namespace MSPMetro.Ingest

/-- Number of alert rows carrying a given trigger URL. -/
def countTrigger (alerts : List Alert) (trigger_url : List Char) : Nat :=
  (alerts.filter (fun a => a.trigger_url == trigger_url)).length

/-- A concrete clean entry: the RSS item with guid `abc` and title
`Storm Warning` of the end-to-end scenario. -/
def stormEntry : CleanEntry :=
  { external_id := str "abc", title := some (str "Storm Warning"),
    url := none, author := none, published_at := none, summary := none,
    content_html := [], content_text := none }

/-- The raw-payload pair stored with the scenario's entry. -/
def stormRaw : List Char × List Char := (str "Feed", str "https://feed.example/rss")

/-- A 201-character error string. -/
def longErr : List Char := List.replicate 201 'e'

/-- A 501-character description text. -/
def longDesc : List Char := List.replicate 501 'a'

/-- A 200-character title text. -/
def longTitle : List Char := List.replicate 200 'b'

end MSPMetro.Ingest

namespace MSPMetro.Discover

/-- First turn of the compressed-send schedule: enters at 0 with no wait,
draws the minimum delay 2, but its HTTP send is postponed to 10 by the
global concurrency semaphore. -/
def squeezeObs1 : TurnObs := ⟨0, 0, 0, 2, 10⟩

/-- Second turn: cleared by the limiter at 2, sends at 11. -/
def squeezeObs2 : TurnObs := ⟨2, 2, 2, 2, 11⟩

/-- A limiter configured with delays drawn from `[2, 3]`. -/
def squeezeCfg : LimiterCfg := ⟨2, 3⟩

end MSPMetro.Discover

namespace MSPMetro.Ingest

/-- A concrete alert row for the re-ingestion scenario. -/
def stormAlert : Alert :=
  { severity := .EMERGENCY, title := str "Storm Warning",
    body := str "Take cover.", scope_kind := .REGION,
    scope_ref := str "twin-cities",
    trigger_url := str "https://api.weather.gov/alerts/one",
    language_profile := .EMERGENCY, created_at := 1, updated_at := 1,
    expires_at := none }

end MSPMetro.Ingest

namespace MSPMetro

open MSPMetro.Ingest

/-- C8: the claim asserts every error string persisted to metrics or to run
details is truncated to at most 200 characters; the details blob of an
error-status run stores the message untruncated, so a 201-character error
message is persisted at length 201. -/
theorem C8_counterexample :
    (error_run_details longErr).length = 201 ∧
    ¬((error_run_details longErr).length ≤ 200) := by
  have h : (error_run_details longErr).length = 201 := by
    rw [error_run_details, longErr, List.length_replicate]
  exact ⟨h, by omega⟩

/-- C8 (amended): the error strings tagged onto the `feed_fetch_error` and
`feed_parse_error` metrics are truncated to at most 200 characters, but the
error message written into an error-status run's details is stored at full
length, untruncated. -/
theorem C8_amended (source url err : List Char) :
    (fetch_error_tags source url err).2.2.length ≤ 200 ∧
    (parse_error_tags source url err).2.2.length ≤ 200 ∧
    (error_run_details err).length = err.length := by
  exact ⟨List.length_take_le 200 err, List.length_take_le 200 err, rfl⟩

/-- C6: the claim asserts a `status=running` row is durably visible in the
store before any network I/O; in the embedded event sequence of `ingest()`
the third event is the first network fetch, yet a crash immediately after
it finds no committed run row at all — the row was only flushed inside the
open transaction. -/
theorem C6_counterexample :
    ingest_events.getD firstNetIdx .commit = .net ∧
    (ledgerAfter (firstNetIdx + 1)).committed = [] := by
  constructor
  · rfl
  · rfl

/-- C6 (amended): the `running` row is added and flushed before the first
network event, so it is visible inside the run's own open transaction
throughout the run, but it is not committed until the run completes: every
crash point before the final commit leaves no committed run row, and only
the final commit publishes the (by then `ok`) row. -/
theorem C6_amended :
    ingest_events.getD 0 .commit = .addRun ⟨.running, none⟩ ∧
    ingest_events.getD 1 .commit = .flush ∧
    ingest_events.getD firstNetIdx .commit = .net ∧
    (∀ k, 2 ≤ k → k ≤ 6 → (ledgerAfter k).tx = [⟨.running, none⟩]) ∧
    (∀ k, k ≤ 7 → (ledgerAfter k).committed = []) ∧
    (ledgerAfter 8).committed = [⟨.ok, none⟩] := by
  refine ⟨rfl, rfl, rfl, ?_, ?_, rfl⟩
  · decide
  · decide

/-- Closed instance of `C6_amended`: mid-run (after both network events,
before the commit) the transaction holds the running row while the
committed store is empty. -/
theorem C6_amended_witness :
    (ledgerAfter 4).tx = [⟨.running, none⟩] ∧
    (ledgerAfter 4).committed = [] :=
  ⟨C6_amended.2.2.2.1 4 (by norm_num) (by norm_num),
   C6_amended.2.2.2.2.1 4 (by norm_num)⟩

end MSPMetro

namespace MSPMetro

open MSPMetro.Ingest

/-- On the 304 short-circuit, the fetched record carries back exactly the
request's validators, so neither guarded replacement fires. -/
theorem applyValidators_fetch_on_304 (ep : EndpointState) :
    applyValidators ep (fetch_on_304 ep.http_etag ep.http_last_modified) = ep := by
  unfold applyValidators fetch_on_304
  simp

/-- A truthy returned validator ends up stored, whether or not it differed. -/
theorem applyValidators_200 (ep : EndpointState) (e l : List Char)
    (he : e ≠ []) (hl : l ≠ []) (f : FetchBytesResult)
    (hfe : f.etag = some e) (hfl : f.last_modified = some l) :
    applyValidators ep f = ⟨some e, some l⟩ := by
  obtain ⟨a, b⟩ := ep
  unfold applyValidators
  rw [hfe, hfl]
  have hte : truthy (some e) = true := by simp [truthy, he]
  have htl : truthy (some l) = true := by simp [truthy, hl]
  by_cases h1 : (some e : Option (List Char)) = a
  · by_cases h2 : (some l : Option (List Char)) = b
    · simp [hte, htl, h1, h2]
    · simp [hte, htl, h1, h2]
  · by_cases h2 : (some l : Option (List Char)) = b
    · simp [hte, htl, h1, h2]
    · simp [hte, htl, h1, h2]

/-- C4: a fetch that yields HTTP 304 returns zero body bytes, leaves the
endpoint's item set unmodified and the stored validators unchanged, and a
200 response carrying (non-empty) validators replaces the stored ones with
the returned values. -/
theorem C4_conditional_fetch
    (parse : List Nat → List Item → List Item × IngestResult)
    (ep : EndpointState) (items : List Item) :
    ((fetch_on_304 ep.http_etag ep.http_last_modified).body = [] ∧
     processFetched parse ep items
       (fetch_on_304 ep.http_etag ep.http_last_modified) =
       (ep, items, ⟨0, 0⟩)) ∧
    (∀ (f : FetchBytesResult) (e l : List Char), e ≠ [] → l ≠ [] →
      f.etag = some e → f.last_modified = some l →
      (processFetched parse ep items f).1 = ⟨some e, some l⟩) := by
  constructor
  · constructor
    · rfl
    · unfold processFetched
      rw [applyValidators_fetch_on_304]
      simp [fetch_on_304]
  · intro f e l he hl hfe hfl
    unfold processFetched
    rw [applyValidators_200 ep e l he hl f hfe hfl]
    split
    · rfl
    · rfl

/-- Closed instance of `C4_conditional_fetch`: a concrete 200 response with
fresh validators replaces a concrete endpoint's stored pair. -/
theorem C4_conditional_fetch_witness :
    (processFetched (fun _ items => (items, ⟨0, 0⟩))
      ⟨some (str "W/\"old\""), none⟩ []
      ⟨200, [60], some (str "W/\"new\""), some (str "Sun")⟩).1 =
      ⟨some (str "W/\"new\""), some (str "Sun")⟩ :=
  (C4_conditional_fetch (fun _ items => (items, ⟨0, 0⟩))
      ⟨some (str "W/\"old\""), none⟩ []).2
    ⟨200, [60], some (str "W/\"new\""), some (str "Sun")⟩
    (str "W/\"new\"") (str "Sun") (by decide) (by decide) rfl rfl

end MSPMetro

namespace MSPMetro

open MSPMetro.Ingest

/-- `updateFirst` preserves the length of the list. -/
theorem length_updateFirst (p : α → Bool) (f : α → α) :
    ∀ l : List α, (Ingest.updateFirst p f l).length = l.length := by
  intro l
  induction l with
  | nil => rfl
  | cons x rest ih =>
    unfold Ingest.updateFirst
    by_cases hx : p x
    · simp [hx]
    · simp [hx, ih]

/-- When the update preserves the selection predicate, filtering after
`updateFirst` updates exactly the head of the original selection. -/
theorem filter_updateFirst (p : α → Bool) (f : α → α)
    (hp : ∀ x, p (f x) = p x) :
    ∀ l : List α, (Ingest.updateFirst p f l).filter p =
      match l.filter p with
      | [] => []
      | x :: rest => f x :: rest := by
  intro l
  induction l with
  | nil => rfl
  | cons x rest ih =>
    unfold Ingest.updateFirst
    by_cases hx : p x
    · simp [hx, List.filter_cons, hp]
    · simp [hx, List.filter_cons, ih]

/-- C5: the NWS severity string maps by the fixed case-insensitive lookup
(`extreme → EMERGENCY`, `severe → WARNING`, `moderate → ADVISORY`, anything
else → `INFO`), and alerts are upserted by `trigger_url`: re-ingesting a
feature with the trigger URL of an existing row rewrites that row's fields
(severity included) in place, keeping exactly one alert per trigger URL,
while a new trigger URL appends one row. -/
theorem C5_severity_and_upsert :
    map_nws_severity (some (str "Extreme")) = .EMERGENCY ∧
    map_nws_severity (some (str "Severe")) = .WARNING ∧
    map_nws_severity (some (str "Moderate")) = .ADVISORY ∧
    (∀ s, (pyStrip (orEmpty s)).map Char.toLower ≠ str "extreme" →
      (pyStrip (orEmpty s)).map Char.toLower ≠ str "severe" →
      (pyStrip (orEmpty s)).map Char.toLower ≠ str "moderate" →
      map_nws_severity s = .INFO) ∧
    (∀ (alerts : List Alert) (now : Nat)
       (scope_ref trigger title body : List Char)
       (sevStr : Option (List Char)) (expires : Option Nat),
      countTrigger alerts trigger ≤ 1 →
      ∃ alerts', upsertNwsAlert alerts now scope_ref trigger title body
          sevStr expires =
          some (alerts',
            if countTrigger alerts trigger = 0 then .inserted else .updated) ∧
        countTrigger alerts' trigger = 1 ∧
        alerts'.length =
          alerts.length + (if countTrigger alerts trigger = 0 then 1 else 0) ∧
        ∀ a ∈ alerts', a.trigger_url = trigger →
          a.severity = map_nws_severity sevStr ∧ a.title = title ∧
          a.body = body ∧ a.updated_at = now ∧ a.scope_ref = scope_ref ∧
          a.expires_at = expires ∧
          a.language_profile = map_nws_severity sevStr) := by
  refine ⟨by decide, by decide, by decide, ?_, ?_⟩
  · intro s h1 h2 h3
    unfold map_nws_severity
    simp only [if_neg h1, if_neg h2, if_neg h3]
  · intro alerts now scope_ref trigger title body sevStr expires hcount
    cases hf : alerts.filter (fun a => a.trigger_url == trigger) with
    | nil =>
      have hc0 : countTrigger alerts trigger = 0 := by
        simp [countTrigger, hf]
      refine ⟨alerts ++
        [{ severity := map_nws_severity sevStr, title := title, body := body,
           scope_kind := .REGION, scope_ref := scope_ref,
           trigger_url := trigger,
           language_profile := map_nws_severity sevStr, created_at := now,
           updated_at := now, expires_at := expires }], ?_, ?_, ?_, ?_⟩
      · simp only [upsertNwsAlert]
        rw [hf, hc0]
        rfl
      · simp [countTrigger, List.filter_append, hf]
      · simp [hc0]
      · intro a ha hat
        rcases List.mem_append.mp ha with hin | hnew
        · exfalso
          have hm : a ∈ alerts.filter (fun a => a.trigger_url == trigger) :=
            List.mem_filter.mpr ⟨hin, by simp [hat]⟩
          rw [hf] at hm
          exact List.not_mem_nil a hm
        · rcases List.mem_singleton.mp hnew with rfl
          exact ⟨rfl, rfl, rfl, rfl, rfl, rfl, rfl⟩
    | cons x rest =>
      cases rest with
      | cons y t =>
        exfalso
        have h2 : 2 ≤ countTrigger alerts trigger := by
          unfold countTrigger
          rw [hf]
          simp only [List.length_cons]
          omega
        omega
      | nil =>
        have hc1 : countTrigger alerts trigger = 1 := by
          simp [countTrigger, hf]
        have hfu := filter_updateFirst
          (fun a : Alert => a.trigger_url == trigger)
          (fun a : Alert =>
            { a with severity := map_nws_severity sevStr, title := title,
                     body := body, scope_kind := ScopeKind.REGION,
                     scope_ref := scope_ref,
                     language_profile := map_nws_severity sevStr,
                     updated_at := now, expires_at := expires })
          (fun _ => rfl) alerts
        rw [hf] at hfu
        refine ⟨Ingest.updateFirst
          (fun a : Alert => a.trigger_url == trigger)
          (fun a : Alert =>
            { a with severity := map_nws_severity sevStr, title := title,
                     body := body, scope_kind := ScopeKind.REGION,
                     scope_ref := scope_ref,
                     language_profile := map_nws_severity sevStr,
                     updated_at := now, expires_at := expires })
          alerts, ?_, ?_, ?_, ?_⟩
        · simp only [upsertNwsAlert]
          rw [hf, hc1]
          rfl
        · simp [countTrigger, hfu]
        · simp [hc1, length_updateFirst]
        · intro a ha hat
          have hmem : a ∈ (Ingest.updateFirst
              (fun a : Alert => a.trigger_url == trigger)
              (fun a : Alert =>
                { a with severity := map_nws_severity sevStr, title := title,
                         body := body, scope_kind := ScopeKind.REGION,
                         scope_ref := scope_ref,
                         language_profile := map_nws_severity sevStr,
                         updated_at := now, expires_at := expires })
              alerts).filter (fun a => a.trigger_url == trigger) :=
            List.mem_filter.mpr ⟨ha, by simp [hat]⟩
          rw [hfu] at hmem
          rcases List.mem_singleton.mp hmem with rfl
          exact ⟨rfl, rfl, rfl, rfl, rfl, rfl, rfl⟩

/-- Closed instance of `C5_severity_and_upsert`: re-ingesting the stored
alert's trigger URL with severity `Severe` rewrites the single row to
`WARNING` without adding a second row. -/
theorem C5_severity_and_upsert_witness :
    ∃ alerts', upsertNwsAlert [stormAlert] 5 (str "twin-cities")
        (str "https://api.weather.gov/alerts/one") (str "Storm Warning")
        (str "Updated body.") (some (str "Severe")) none =
        some (alerts',
          if countTrigger [stormAlert]
              (str "https://api.weather.gov/alerts/one") = 0
          then .inserted else .updated) ∧
      countTrigger alerts' (str "https://api.weather.gov/alerts/one") = 1 ∧
      alerts'.length = [stormAlert].length +
        (if countTrigger [stormAlert]
            (str "https://api.weather.gov/alerts/one") = 0 then 1 else 0) ∧
      ∀ a ∈ alerts',
        a.trigger_url = str "https://api.weather.gov/alerts/one" →
        a.severity = map_nws_severity (some (str "Severe")) ∧
        a.title = str "Storm Warning" ∧ a.body = str "Updated body." ∧
        a.updated_at = 5 ∧ a.scope_ref = str "twin-cities" ∧
        a.expires_at = none ∧
        a.language_profile = map_nws_severity (some (str "Severe")) :=
  C5_severity_and_upsert.2.2.2.2 [stormAlert] 5 (str "twin-cities")
    (str "https://api.weather.gov/alerts/one") (str "Storm Warning")
    (str "Updated body.") (some (str "Severe")) none (by decide)

end MSPMetro

namespace MSPMetro

open MSPMetro.Ingest

/-- The guarded assignment overwrites the stored value exactly when the new
value is non-null and differs. -/
theorem mergeVal_overwrite_iff [DecidableEq α] (st nv : Option α) :
    (nv ≠ none ∧ nv ≠ st) ↔ (mergeVal st nv = nv ∧ mergeVal st nv ≠ st) := by
  unfold mergeVal
  split_ifs with h
  · obtain ⟨h1, h2⟩ := h
    constructor
    · intro _
      exact ⟨rfl, fun hc => h1 hc.symm⟩
    · intro _
      exact ⟨h2, fun hc => h1 hc.symm⟩
  · constructor
    · intro ⟨h1, h2⟩
      exact absurd ⟨fun he => h2 he.symm, h1⟩ h
    · intro ⟨_, h2⟩
      exact absurd rfl h2

/-- The per-field `changed` contribution is false exactly when the field
keeps its stored value. -/
theorem mergeChanged_false_iff [DecidableEq α] (st nv : Option α) :
    mergeChanged st nv = false ↔ mergeVal st nv = st := by
  unfold mergeChanged mergeVal
  split_ifs with h
  · simp only [decide_eq_false_iff_not]
    constructor
    · intro hc
      exact absurd h hc
    · intro he
      exact absurd he.symm h.1
  · simp [h]

/-- C3: on the item update path, each of the nine merged fields is
overwritten exactly when the new value is non-null and differs from the
stored value; a null incoming author preserves the stored author; and the
`changed` flag is clear exactly when the row is left identical. -/
theorem C3_update_merge (now : Nat) (e : CleanEntry)
    (raw : List Char × List Char) (it : Item) :
    (((some now : Option Nat) ≠ none ∧ (some now : Option Nat) ≠ it.updated_at) ↔
      ((updateItem now e raw it).1.updated_at = some now ∧
       (updateItem now e raw it).1.updated_at ≠ it.updated_at)) ∧
    ((e.title ≠ none ∧ e.title ≠ it.title) ↔
      ((updateItem now e raw it).1.title = e.title ∧
       (updateItem now e raw it).1.title ≠ it.title)) ∧
    ((e.author ≠ none ∧ e.author ≠ it.author) ↔
      ((updateItem now e raw it).1.author = e.author ∧
       (updateItem now e raw it).1.author ≠ it.author)) ∧
    ((e.url ≠ none ∧ e.url ≠ it.canonical_url) ↔
      ((updateItem now e raw it).1.canonical_url = e.url ∧
       (updateItem now e raw it).1.canonical_url ≠ it.canonical_url)) ∧
    ((e.summary ≠ none ∧ e.summary ≠ it.summary) ↔
      ((updateItem now e raw it).1.summary = e.summary ∧
       (updateItem now e raw it).1.summary ≠ it.summary)) ∧
    ((e.content_text ≠ none ∧ e.content_text ≠ it.content_text) ↔
      ((updateItem now e raw it).1.content_text = e.content_text ∧
       (updateItem now e raw it).1.content_text ≠ it.content_text)) ∧
    ((noneIfEmpty e.content_html ≠ none ∧
      noneIfEmpty e.content_html ≠ it.content_html) ↔
      ((updateItem now e raw it).1.content_html = noneIfEmpty e.content_html ∧
       (updateItem now e raw it).1.content_html ≠ it.content_html)) ∧
    (((some raw : Option (List Char × List Char)) ≠ none ∧
      (some raw : Option (List Char × List Char)) ≠ it.raw_json) ↔
      ((updateItem now e raw it).1.raw_json = some raw ∧
       (updateItem now e raw it).1.raw_json ≠ it.raw_json)) ∧
    ((some (item_hash_content e.title e.summary e.content_html) ≠
        (none : Option (List Char)) ∧
      some (item_hash_content e.title e.summary e.content_html) ≠
        it.hash_content) ↔
      ((updateItem now e raw it).1.hash_content =
        some (item_hash_content e.title e.summary e.content_html) ∧
       (updateItem now e raw it).1.hash_content ≠ it.hash_content)) ∧
    (e.author = none → (updateItem now e raw it).1.author = it.author) ∧
    ((updateItem now e raw it).2 = false ↔ (updateItem now e raw it).1 = it) := by
  refine ⟨mergeVal_overwrite_iff _ _, mergeVal_overwrite_iff _ _,
    mergeVal_overwrite_iff _ _, mergeVal_overwrite_iff _ _,
    mergeVal_overwrite_iff _ _, mergeVal_overwrite_iff _ _,
    mergeVal_overwrite_iff _ _, mergeVal_overwrite_iff _ _,
    mergeVal_overwrite_iff _ _, ?_, ?_⟩
  · intro h
    show mergeVal it.author e.author = it.author
    rw [h]
    simp [mergeVal]
  · obtain ⟨sid, eid, exid, pub, upd, tit, auth, canon, summ, ctext, chtml,
      rjson, hashc⟩ := it
    simp only [updateItem, Bool.or_eq_false_iff, mergeChanged_false_iff,
      Item.mk.injEq]
    tauto

/-- Closed instance of `C3_update_merge`: a null incoming author leaves a
concrete stored author untouched. -/
theorem C3_update_merge_witness :
    (updateItem 7 stormEntry stormRaw
      { source_id := 1, endpoint_id := 1, external_id := str "abc",
        published_at := none, updated_at := some 3, title := none,
        author := some (str "Jo Writer"), canonical_url := none,
        summary := none, content_text := none, content_html := none,
        raw_json := none, hash_content := none }).1.author =
      some (str "Jo Writer") :=
  (C3_update_merge 7 stormEntry stormRaw
      { source_id := 1, endpoint_id := 1, external_id := str "abc",
        published_at := none, updated_at := some 3, title := none,
        author := some (str "Jo Writer"), canonical_url := none,
        summary := none, content_text := none, content_html := none,
        raw_json := none, hash_content := none 
        }).2.2.2.2.2.2.2.2.2.1 rfl

end MSPMetro

namespace MSPMetro

open MSPMetro.Ingest

/-- C1 (amended): reconciling a clean entry into an empty store inserts one
row; reconciling the identical entry again touches that single row (no
duplicate, nothing inserted), leaves every content field unchanged, and
reports `Unchanged` exactly when the second wall-clock timestamp equals the
stored one — with time advanced it refreshes `updated_at` and reports
`Updated`. -/
theorem C1_reconcile_twice (source_id endpoint_id : Nat)
    (raw : List Char × List Char) (now1 now2 : Nat) (e : CleanEntry) :
    reconcileEntry source_id endpoint_id raw now1 e [] =
      some ([insertItem source_id endpoint_id now1 e raw], .inserted) ∧
    reconcileEntry source_id endpoint_id raw now2 e
        [insertItem source_id endpoint_id now1 e raw] =
      some ([{ insertItem source_id endpoint_id now1 e raw with
                 updated_at := some now2 }],
        if now2 = now1 then .unchanged else .updated) := by
  constructor
  · rfl
  · unfold reconcileEntry
    have hk : (fun it : Item =>
        it.endpoint_id == endpoint_id && it.external_id == e.external_id)
        (insertItem source_id endpoint_id now1 e raw) = true := by
      simp [insertItem]
    simp only [List.filter_cons, hk, if_pos, List.filter_nil]
    simp only [updateFirstItem, hk, if_pos]
    by_cases h : now2 = now1
    · subst h
      simp [updateItem, mergeVal, mergeChanged, insertItem]
    · simp [updateItem, mergeVal, mergeChanged, insertItem, h,
        Ne.symm h]

/-- C1: the claim asserts a second reconcile of identical input yields
`Unchanged` with `updated = 0`; with the clock advanced from 0 to 1 the
second reconcile of the very entry of the end-to-end scenario reports
`Updated` instead, because `updated_at: now` sits in the merge dictionary
and always differs. -/
theorem C1_counterexample :
    reconcileEntry 1 1 stormRaw 0 stormEntry [] =
      some ([insertItem 1 1 0 stormEntry stormRaw], .inserted) ∧
    (reconcileEntry 1 1 stormRaw 1 stormEntry
        [insertItem 1 1 0 stormEntry stormRaw]).map (fun p => p.2) =
      some .updated ∧
    (ReconcileOutcome.updated ≠ .unchanged) := by
  refine ⟨rfl, ?_, by decide⟩
  decide

end MSPMetro

namespace MSPMetro

open MSPMetro.Discover

/-- C7 (amended): under the constraints `wait_turn` imposes — sleeping
while holding the per-host lock until `_next_ok`, then rescheduling
`_next_ok` to the clock plus a delay of at least `min_delay` — consecutive
requests to one host clear the limiter at least `min_delay` apart.  (The
moment the HTTP send begins may be postponed further by the global
concurrency semaphore, which can compress the spacing of the sends
themselves; the guarantee holds at the limiter.) -/
theorem C7_limiter_spacing (cfg : LimiterCfg) (nextOk lastT : ℚ)
    (obs : List TurnObs) (h : validTrace cfg nextOk lastT obs) :
    obs.Chain' (fun a b => a.now2 + cfg.min_delay ≤ b.now2) := by
  induction obs generalizing nextOk lastT with
  | nil => exact List.chain'_nil
  | cons ob rest ih =>
    obtain ⟨_, hturn, hrest⟩ := h
    have htail := ih (nextOkAfter ob) ob.now2 hrest
    cases rest with
    | nil => simp
    | cons ob2 rest2 =>
      refine List.Chain'.cons ?_ htail
      obtain ⟨_, hturn2, _⟩ := hrest
      obtain ⟨hw1, hw2, _, hwn, hdmin, _, _⟩ := hturn2
      have hwake : nextOkAfter ob ≤ ob2.wake := by
        by_cases hlt : ob2.now < nextOkAfter ob
        · exact hw1 hlt
        · push_neg at hlt
          rw [hw2 hlt]
          exact hlt
      have : nextOkAfter ob ≤ ob2.now2 := le_trans hwake hwn
      have hmin : ob.now2 + cfg.min_delay ≤ nextOkAfter ob := by
        unfold nextOkAfter
        have := hturn.2.2.2.2.1
        linarith
      linarith

/-- Closed instance of `C7_limiter_spacing` on the concrete two-request
schedule: its limiter-clear instants are at least `min_delay` apart. -/
theorem C7_limiter_spacing_witness :
    validTrace squeezeCfg 0 0 [squeezeObs1, squeezeObs2] ∧
    [squeezeObs1, squeezeObs2].Chain'
      (fun a b => a.now2 + squeezeCfg.min_delay ≤ b.now2) := by
  have hv : validTrace squeezeCfg 0 0 [squeezeObs1, squeezeObs2] := by
    simp only [validTrace, turnOk, nextOkAfter, squeezeCfg, squeezeObs1,
      squeezeObs2]
    norm_num
  exact ⟨hv, C7_limiter_spacing squeezeCfg 0 0 [squeezeObs1, squeezeObs2] hv⟩

/-- C7: the claim asserts the gap between the start times of any two
requests issued to a host is at least `min_delay` even under maximum
concurrency; in the concrete schedule both turns satisfy every constraint
the code imposes, yet the first request's HTTP send is postponed by the
concurrency semaphore to instant 10 while the second sends at 11 — a gap
of 1, below the configured `min_delay` of 2. -/
theorem C7_counterexample :
    validTrace squeezeCfg 0 0 [squeezeObs1, squeezeObs2] ∧
    squeezeObs1.send ≤ squeezeObs2.send ∧
    squeezeObs2.send - squeezeObs1.send < squeezeCfg.min_delay := by
  refine ⟨?_, ?_, ?_⟩
  · simp only [validTrace, turnOk, nextOkAfter, squeezeCfg, squeezeObs1,
      squeezeObs2]
    norm_num
  · unfold squeezeObs1 squeezeObs2
    norm_num
  · unfold squeezeObs1 squeezeObs2 squeezeCfg
    norm_num

end MSPMetro

namespace MSPMetro

open MSPMetro.Ingest

/-- A newline-free segment before a newline separator is determined by the
joined string. -/
theorem append_nl_inj (a : List Char) :
    ∀ (b u v : List Char), '\n' ∉ a → '\n' ∉ b →
      a ++ '\n' :: u = b ++ '\n' :: v → a = b ∧ u = v := by
  induction a with
  | nil =>
    intro b u v _ hb he
    cases b with
    | nil =>
      simp at he
      exact ⟨rfl, he⟩
    | cons x bt =>
      exfalso
      have hx : x = '\n' := by
        have := congrArg List.head? he
        simpa using this.symm
      exact hb (hx ▸ List.mem_cons_self x bt)
  | cons y at' ih =>
    intro b u v ha hb he
    cases b with
    | nil =>
      exfalso
      have hy : y = '\n' := by
        have := congrArg List.head? he
        simpa using this
      exact ha (hy ▸ List.mem_cons_self y at')
    | cons x bt =>
      simp only [List.cons_append, List.cons.injEq] at he
      obtain ⟨rfl, he2⟩ := he
      have hr := ih bt u v (fun hm => ha (List.mem_cons_of_mem _ hm))
        (fun hm => hb (List.mem_cons_of_mem _ hm)) he2
      exact ⟨by rw [hr.1], hr.2⟩

/-- `x or ""` is injective away from the empty-string option, which the
normaliser never produces. -/
theorem orEmpty_inj (t t' : Option (List Char))
    (h : t ≠ some []) (h' : t' ≠ some []) (he : orEmpty t = orEmpty t') :
    t = t' := by
  cases t with
  | none =>
    cases t' with
    | none => rfl
    | some l =>
      exfalso
      apply h'
      have hl : l = [] := by simpa [orEmpty] using he.symm
      rw [hl]
  | some l =>
    cases t' with
    | none =>
      exfalso
      apply h
      have hl : l = [] := by simpa [orEmpty] using he
      rw [hl]
    | some l' =>
      simpa [orEmpty] using he

/-- C2 (amended): the stored content hash is the SHA-256 hex digest of the
newline-joined concatenation of normalised title, normalised summary and
raw pre-strip HTML, in that fixed order with absent fields defaulted to the
empty string; the hash is a deterministic function of the three values, and
— the joined fields being newline-free where the normaliser guarantees it —
any change to any one of the three changes the hashed input string. -/
theorem C2_hash_input (t s t' s' : Option (List Char)) (c c' : List Char)
    (htn : '\n' ∉ orEmpty t) (htn' : '\n' ∉ orEmpty t')
    (hsn : '\n' ∉ orEmpty s) (hsn' : '\n' ∉ orEmpty s')
    (hte : t ≠ some []) (hte' : t' ≠ some [])
    (hse : s ≠ some []) (hse' : s' ≠ some []) :
    item_hash_content t s c = sha256_text (hash_input t s c) ∧
    (t = t' ∧ s = s' ∧ c = c' →
      item_hash_content t s c = item_hash_content t' s' c') ∧
    (hash_input t s c = hash_input t' s' c' ↔ (t = t' ∧ s = s' ∧ c = c')) := by
  refine ⟨rfl, ?_, ?_, ?_⟩
  · intro ⟨h1, h2, h3⟩
    rw [h1, h2, h3]
  · intro he
    unfold hash_input at he
    obtain ⟨he1, he2⟩ := append_nl_inj (orEmpty t) (orEmpty t') _ _ htn htn' he
    obtain ⟨he3, he4⟩ := append_nl_inj (orEmpty s) (orEmpty s') _ _ hsn hsn' he2
    exact ⟨orEmpty_inj t t' hte hte' he1, orEmpty_inj s s' hse hse' he3, he4⟩
  · intro ⟨h1, h2, h3⟩
    rw [h1, h2, h3]

/-- Closed instance of `C2_hash_input` at concrete fields. -/
theorem C2_hash_input_witness :
    hash_input (some (str "Storm Warning")) none (str "<p>x</p>") =
      hash_input (some (str "Storm Warning")) none (str "<p>x</p>") ↔
    (some (str "Storm Warning") = some (str "Storm Warning") ∧
     (none : Option (List Char)) = none ∧ str "<p>x</p>" = str "<p>x</p>") :=
  (C2_hash_input (some (str "Storm Warning")) none
    (some (str "Storm Warning")) none (str "<p>x</p>") (str "<p>x</p>")
    (by decide) (by decide) (by decide) (by decide)
    (by decide) (by decide) (by decide) (by decide)).2.2

/-- C2: the claim asserts the hash is SHA-256 of the plain concatenation of
the three fields; the code newline-joins them, and on title `a` with empty
summary and empty HTML the two digests differ. -/
theorem C2_counterexample :
    item_hash_content (some (str "a")) none [] ≠
      claimedConcatHash (some (str "a")) none [] := by
  decide

end MSPMetro

namespace MSPMetro

open MSPMetro.TextClean

/-- The substitution engine maps the empty list to itself. -/
theorem reSubF_nil (m : Option Char → List Char → Option Nat)
    (fuel : Nat) (prev : Option Char) : reSubF m fuel prev [] = [] := by
  cases fuel <;> rfl

/-- Every character a substitution emits is a character of the input or the
replacement space. -/
theorem mem_reSubF (m : Option Char → List Char → Option Nat) :
    ∀ (fuel : Nat) (prev : Option Char) (l : List Char) (c : Char),
      c ∈ reSubF m fuel prev l → c ∈ l ∨ c = ' ' := by
  intro fuel
  induction fuel with
  | zero =>
    intro prev l c hc
    cases l with
    | nil => exact absurd hc (List.not_mem_nil c)
    | cons a t => exact Or.inl hc
  | succ fuel ih =>
    intro prev l c hc
    cases l with
    | nil =>
      rw [reSubF_nil] at hc
      exact absurd hc (List.not_mem_nil c)
    | cons c0 rest =>
      rw [reSubF] at hc
      split at hc
      · rcases List.mem_cons.mp hc with h | h
        · exact Or.inr h
        · rcases ih _ _ _ h with h2 | h2
          · exact Or.inl (List.mem_cons_of_mem c0 (List.mem_of_mem_drop h2))
          · exact Or.inr h2
      · rcases List.mem_cons.mp hc with h | h
        · exact Or.inl (h ▸ List.mem_cons_self c0 rest)
        · rcases ih _ _ _ h with h2 | h2
          · exact Or.inl (List.mem_cons_of_mem c0 h2)
          · exact Or.inr h2

/-- One substitution pass never lengthens the text. -/
theorem length_reSubF (m : Option Char → List Char → Option Nat) :
    ∀ (fuel : Nat) (prev : Option Char) (l : List Char),
      (reSubF m fuel prev l).length ≤ l.length := by
  intro fuel
  induction fuel with
  | zero =>
    intro prev l
    cases l with
    | nil => simp [reSubF_nil]
    | cons a t => exact Nat.le_refl _
  | succ fuel ih =>
    intro prev l
    cases l with
    | nil => simp [reSubF_nil]
    | cons c0 rest =>
      rw [reSubF]
      split
      · rename_i n heq
        have hd := List.length_drop n rest
        have hrec := ih (some ((c0 :: rest).getD n c0)) (rest.drop n)
        simp only [List.length_cons]
        omega
      · have := ih (some c0) rest
        simp only [List.length_cons]
        omega

/-- Wrapper of `mem_reSubF` at the entry point. -/
theorem mem_reSub (m : Option Char → List Char → Option Nat)
    (l : List Char) (c : Char) (hc : c ∈ reSub m l) : c ∈ l ∨ c = ' ' :=
  mem_reSubF m l.length none l c hc

/-- Wrapper of `length_reSubF` at the entry point. -/
theorem length_reSub (m : Option Char → List Char → Option Nat)
    (l : List Char) : (reSub m l).length ≤ l.length :=
  length_reSubF m l.length none l

/-- The trailing-`<` substitution emits characters of the input or a
space. -/
theorem mem_ltToEndSub :
    ∀ (l : List Char) (c : Char), c ∈ ltToEndSub l → c ∈ l ∨ c = ' ' := by
  intro l
  induction l with
  | nil =>
    intro c hc
    exact absurd hc (List.not_mem_nil c)
  | cons c0 rest ih =>
    intro c hc
    rw [ltToEndSub] at hc
    split at hc
    · rcases List.mem_cons.mp hc with h | h
      · exact Or.inr h
      · split at h
        · rcases List.mem_singleton.mp h with rfl
          rename_i hcond hnl
          have hmem : '\n' ∈ rest := by
            have : rest.count '\n' = 1 := by simpa [nlCount] using hnl
            exact List.count_pos_iff.mp (by omega)
          exact Or.inl (List.mem_cons_of_mem c0 hmem)
        · exact absurd h (List.not_mem_nil c)
    · rcases List.mem_cons.mp hc with h | h
      · exact Or.inl (h ▸ List.mem_cons_self c0 rest)
      · rcases ih c h with h2 | h2
        · exact Or.inl (List.mem_cons_of_mem c0 h2)
        · exact Or.inr h2

/-- The trailing-`<` substitution never lengthens the text. -/
theorem length_ltToEndSub :
    ∀ l : List Char, (ltToEndSub l).length ≤ l.length := by
  intro l
  induction l with
  | nil => exact Nat.le_refl _
  | cons c0 rest ih =>
    rw [ltToEndSub]
    split
    · split
      · rename_i hcond hnl
        have hmem : '\n' ∈ rest := by
          have : rest.count '\n' = 1 := by simpa [nlCount] using hnl
          exact List.count_pos_iff.mp (by omega)
        have h1 : 1 ≤ rest.length :=
          List.length_pos.mpr (List.ne_nil_of_mem hmem)
        simp only [List.length_cons, List.length_singleton, List.length_nil]
        omega
      · simp only [List.length_cons, List.length_singleton, List.length_nil]
        omega
    · simp only [List.length_cons]
      omega

end MSPMetro

namespace MSPMetro

open MSPMetro.TextClean

/-- A numeric reference unescapes to at most one character. -/
theorem numRepl_length (k : Nat) : (numRepl k).length ≤ 1 := by
  unfold numRepl
  cases h : invalidCharref k with
  | some c => simp
  | none =>
    split_ifs <;> simp

/-- Every replacement in the named-reference table is at most two
characters. -/
theorem html5Table_val_length : ∀ kv ∈ html5Table, kv.2.length ≤ 2 := by
  decide

/-- Every key in the named-reference table is at least two characters. -/
theorem html5Table_key_length : ∀ kv ∈ html5Table, 2 ≤ kv.1.length := by
  decide

/-- Bound on a direct table lookup. -/
theorem namedLookup_length (s v : List Char) (h : namedLookup s = some v) :
    v.length ≤ 2 := by
  unfold namedLookup at h
  rcases Option.map_eq_some'.mp h with ⟨kv, hfind, hv⟩
  have hmem := List.mem_of_find?_eq_some hfind
  exact hv ▸ html5Table_val_length kv hmem

/-- Bound on the longest-prefix fallback. -/
theorem namedFallback_length :
    ∀ (x : Nat) (s r : List Char), 1 ≤ s.length →
      namedFallback x s = some r → r.length ≤ s.length + 1 := by
  intro x
  induction x with
  | zero =>
    intro s r _ h
    exact absurd h (by simp [namedFallback])
  | succ n ih =>
    intro s r hs h
    cases n with
    | zero => exact absurd h (by simp [namedFallback])
    | succ n2 =>
      rw [namedFallback] at h
      split at h
      · rename_i v hv
        have hvlen := namedLookup_length _ v hv
        have hdrop := List.length_drop (n2 + 2) s
        have hr : r = v ++ s.drop (n2 + 2) := by
          injection h with h2
          exact h2.symm
        rw [hr, List.length_append]
        omega
      · exact ih s r hs h

end MSPMetro

namespace MSPMetro

open MSPMetro.TextClean

/-- A named-reference body of at least one character unescapes to at most
one character more than its own length. -/
theorem namedRepl_length (s : List Char) (hs : 1 ≤ s.length) :
    (namedRepl s).length ≤ s.length + 1 := by
  unfold namedRepl
  cases h1 : namedLookup s with
  | some v =>
    simp only [h1]
    have := namedLookup_length s v h1
    omega
  | none =>
    simp only [h1]
    cases h2 : namedFallback (s.length - 1) s with
    | some v =>
      simp only [h2]
      have := namedFallback_length (s.length - 1) s v hs h2
      omega
    | none =>
      simp only [h2, List.length_cons]
      omega

/-- The numeric parser consumes at least as many characters as it emits
(minus the ampersand) and no more than the input offers. -/
theorem numericP_spec (r2 : List Char) (n : Nat) (repl : List Char)
    (h : numericP r2 = some (n, repl)) :
    repl.length ≤ 1 ∧ 1 ≤ n ∧ n ≤ r2.length := by
  cases r2 with
  | nil => simp [numericP] at h
  | cons x r3 =>
    simp only [numericP] at h
    by_cases hx : (x == 'x' || x == 'X') = true
    · rw [if_pos hx] at h
      by_cases hhs : r3.takeWhile isHexDigit = []
      · rw [if_pos hhs] at h
        exact absurd h (by simp)
      · rw [if_neg hhs] at h
        injection h with h2
        injection h2 with ha hb
        have htake := (List.takeWhile_sublist (l := r3) isHexDigit).length_le
        have hnum := numRepl_length (hexVal (r3.takeWhile isHexDigit))
        refine ⟨hb ▸ hnum, ?_, ?_⟩
        · omega
        · by_cases hsemi : (((r3.drop (r3.takeWhile isHexDigit).length).head?) ==
              some ';') = true
          · have hlt : (r3.takeWhile isHexDigit).length < r3.length := by
              by_contra hge
              push_neg at hge
              have hnil : r3.drop (r3.takeWhile isHexDigit).length = [] :=
                List.drop_eq_nil_of_le hge
              rw [hnil] at hsemi
              simp at hsemi
            rw [if_pos hsemi] at ha
            simp only [List.length_cons]
            omega
          · rw [if_neg hsemi] at ha
            simp only [List.length_cons]
            omega
    · rw [if_neg hx] at h
      by_cases hds : (x :: r3).takeWhile Char.isDigit = []
      · rw [if_pos hds] at h
        exact absurd h (by simp)
      · rw [if_neg hds] at h
        injection h with h2
        injection h2 with ha hb
        have htake :=
          (List.takeWhile_sublist (l := x :: r3) Char.isDigit).length_le
        have hnum := numRepl_length (decVal ((x :: r3).takeWhile Char.isDigit))
        have hpos : 1 ≤ ((x :: r3).takeWhile Char.isDigit).length := by
          rcases hne : (x :: r3).takeWhile Char.isDigit with _ | ⟨a, t⟩
          · exact absurd hne hds
          · simp
        refine ⟨hb ▸ hnum, ?_, ?_⟩
        · omega
        · by_cases hsemi : ((((x :: r3).drop
              ((x :: r3).takeWhile Char.isDigit).length).head?) ==
              some ';') = true
          · have hlt : ((x :: r3).takeWhile Char.isDigit).length <
                (x :: r3).length := by
              by_contra hge
              push_neg at hge
              have hnil : (x :: r3).drop
                  ((x :: r3).takeWhile Char.isDigit).length = [] :=
                List.drop_eq_nil_of_le hge
              rw [hnil] at hsemi
              simp at hsemi
            rw [if_pos hsemi] at ha
            omega
          · rw [if_neg hsemi] at ha
            omega

end MSPMetro

namespace MSPMetro

open MSPMetro.TextClean

/-- The named parser consumes at least one and at most all available
characters, and emits at most one character more than it consumes. -/
theorem namedP_spec (rest : List Char) (n : Nat) (repl : List Char)
    (h : namedP rest = some (n, repl)) :
    repl.length ≤ n + 1 ∧ 1 ≤ n ∧ n ≤ rest.length := by
  simp only [namedP] at h
  by_cases ht : (rest.takeWhile isNameChar).take 32 = []
  · rw [if_pos ht] at h
    exact absurd h (by simp)
  · rw [if_neg ht] at h
    have htpos : 1 ≤ ((rest.takeWhile isNameChar).take 32).length := by
      rcases hne : (rest.takeWhile isNameChar).take 32 with _ | ⟨a, t⟩
      · exact absurd hne ht
      · simp
    have htle : ((rest.takeWhile isNameChar).take 32).length ≤ rest.length := by
      have h1 : ((rest.takeWhile isNameChar).take 32).length ≤
          (rest.takeWhile isNameChar).length := by
        rw [List.length_take]
        exact min_le_right _ _
      exact le_trans h1 (List.takeWhile_sublist isNameChar).length_le
    by_cases hsemi : (((rest.drop
        ((rest.takeWhile isNameChar).take 32).length).head?) == some ';') = true
    · rw [if_pos hsemi] at h
      injection h with h2
      injection h2 with ha hb
      have hlt : ((rest.takeWhile isNameChar).take 32).length < rest.length := by
        by_contra hge
        push_neg at hge
        have hnil : rest.drop ((rest.takeWhile isNameChar).take 32).length = [] :=
          List.drop_eq_nil_of_le hge
        rw [hnil] at hsemi
        simp at hsemi
      have hrl := namedRepl_length ((rest.takeWhile isNameChar).take 32 ++ [';'])
        (by simp)
      rw [List.length_append] at hrl
      refine ⟨?_, by omega, by omega⟩
      rw [← hb]
      simp only [List.length_singleton] at hrl
      omega
    · rw [if_neg hsemi] at h
      injection h with h2
      injection h2 with ha hb
      have hrl := namedRepl_length ((rest.takeWhile isNameChar).take 32) htpos
      refine ⟨?_, by omega, by omega⟩
      rw [← hb]
      omega

/-- The character-reference parser consumes at least one and at most all
available characters, and emits at most one character more than it
consumes. -/
theorem charrefP_spec (rest : List Char) (n : Nat) (repl : List Char)
    (h : charrefP rest = some (n, repl)) :
    repl.length ≤ n + 1 ∧ 1 ≤ n ∧ n ≤ rest.length := by
  cases rest with
  | nil => simp [charrefP] at h
  | cons c r2 =>
    simp only [charrefP] at h
    by_cases hc : c = '#'
    · rw [if_pos hc] at h
      cases hn : numericP r2 with
      | none =>
        rw [hn] at h
        exact absurd h (by simp)
      | some p =>
        rw [hn] at h
        obtain ⟨m, rp⟩ := p
        have hspec := numericP_spec r2 m rp hn
        simp only [Option.map_some', Option.some.injEq, Prod.mk.injEq] at h
        obtain ⟨ha, hb⟩ := h
        refine ⟨?_, by omega, ?_⟩
        · rw [← hb]
          omega
        · simp only [List.length_cons]
          omega
    · rw [if_neg hc] at h
      have := namedP_spec (c :: r2) n repl h
      exact this

/-- The unescape scanner never lengthens the text. -/
theorem length_unescapeF :
    ∀ (fuel : Nat) (l : List Char), (unescapeF fuel l).length ≤ l.length := by
  intro fuel
  induction fuel with
  | zero =>
    intro l
    cases l with
    | nil => exact Nat.le_refl _
    | cons c rest => exact Nat.le_refl _
  | succ fuel ih =>
    intro l
    cases l with
    | nil => exact Nat.le_refl _
    | cons c rest =>
      rw [unescapeF]
      by_cases hc : (c == '&') = true
      · rw [if_pos hc]
        cases hcr : charrefP rest with
        | none =>
          simp only [List.length_cons]
          have := ih rest
          omega
        | some p =>
          obtain ⟨n, repl⟩ := p
          have hspec := charrefP_spec rest n repl hcr
          have hrec := ih (rest.drop n)
          have hdl := List.length_drop n rest
          simp only [List.length_append, List.length_cons]
          omega
      · rw [if_neg hc]
        simp only [List.length_cons]
        have := ih rest
        omega

/-- `html.unescape` never lengthens the text. -/
theorem length_htmlUnescape (l : List Char) :
    (htmlUnescape l).length ≤ l.length :=
  length_unescapeF l.length l

end MSPMetro

namespace MSPMetro

open MSPMetro.TextClean

/-- Dropping past the maximal satisfying run is `dropWhile`. -/
theorem drop_length_takeWhile (p : Char → Bool) :
    ∀ l : List Char, l.drop (l.takeWhile p).length = l.dropWhile p := by
  intro l
  induction l with
  | nil => rfl
  | cons a t ih =>
    by_cases hpa : p a = true
    · simp [List.takeWhile_cons, List.dropWhile_cons, hpa, ih]
    · simp [List.takeWhile_cons, List.dropWhile_cons, hpa]

/-- The head surviving `dropWhile` fails the predicate. -/
theorem head_dropWhile_false (p : Char → Bool) (l : List Char) (c : Char)
    (h : (l.dropWhile p).head? = some c) : p c = false := by
  have hh := List.head?_dropWhile_not p l
  rw [h] at hh
  simpa using hh

/-- A leading non-space character is passed through by the collapse. -/
theorem collapse_cons_nospace (fuel : Nat) (prev : Option Char)
    (c0 : Char) (rest : List Char) (hc0 : isPySpace c0 = false) :
    reSubF wsRunM (fuel + 1) prev (c0 :: rest) =
      c0 :: reSubF wsRunM fuel (some c0) rest := by
  rw [reSubF]
  simp [wsRunM, hc0]

/-- A leading whitespace run collapses to one space and scanning resumes at
the first non-space character. -/
theorem collapse_cons_space (fuel : Nat) (prev : Option Char)
    (c0 : Char) (rest : List Char) (hc0 : isPySpace c0 = true) :
    reSubF wsRunM (fuel + 1) prev (c0 :: rest) =
      ' ' :: reSubF wsRunM fuel
        (some ((c0 :: rest).getD (rest.takeWhile isPySpace).length c0))
        (rest.drop (rest.takeWhile isPySpace).length) := by
  rw [reSubF]
  simp [wsRunM, hc0]

/-- Every whitespace character the collapse emits is a plain space. -/
theorem collapse_space_eq :
    ∀ (fuel : Nat) (prev : Option Char) (l : List Char), l.length ≤ fuel →
      ∀ c ∈ reSubF wsRunM fuel prev l, isPySpace c = true → c = ' ' := by
  intro fuel
  induction fuel with
  | zero =>
    intro prev l hl c hc
    have : l = [] := List.length_eq_zero.mp (Nat.le_zero.mp hl)
    subst this
    rw [reSubF_nil] at hc
    exact absurd hc (List.not_mem_nil c)
  | succ fuel ih =>
    intro prev l hl c hc hsp
    cases l with
    | nil =>
      rw [reSubF_nil] at hc
      exact absurd hc (List.not_mem_nil c)
    | cons c0 rest =>
      by_cases hc0 : isPySpace c0 = true
      · rw [collapse_cons_space fuel prev c0 rest hc0] at hc
        rcases List.mem_cons.mp hc with h | h
        · exact h
        · have hdl : (rest.drop (rest.takeWhile isPySpace).length).length ≤
              fuel := by
            have := List.length_drop (rest.takeWhile isPySpace).length rest
            simp only [List.length_cons] at hl
            omega
          exact ih _ _ hdl c h hsp
      · have hc0f : isPySpace c0 = false := by simpa using hc0
        rw [collapse_cons_nospace fuel prev c0 rest hc0f] at hc
        rcases List.mem_cons.mp hc with h | h
        · subst h
          rw [hc0f] at hsp
          exact absurd hsp (by simp)
        · have hrl : rest.length ≤ fuel := by
            simp only [List.length_cons] at hl
            omega
          exact ih _ _ hrl c h hsp

/-- A leading non-space character makes the two-space check depend only on
the tail. -/
theorem noTwoSpaces_cons_of (a : Char) (r : List Char)
    (ha : isPySpace a = false) : noTwoSpaces (a :: r) = noTwoSpaces r := by
  cases r with
  | nil => simp [noTwoSpaces]
  | cons b t => simp [noTwoSpaces, ha]

/-- The two-space check restricts to the tail. -/
theorem noTwoSpaces_tail (a : Char) (r : List Char)
    (h : noTwoSpaces (a :: r) = true) : noTwoSpaces r = true := by
  cases r with
  | nil => rfl
  | cons b t =>
    rw [noTwoSpaces, Bool.and_eq_true] at h
    exact h.2

/-- The two-space check survives `dropWhile`. -/
theorem noTwoSpaces_dropWhile (p : Char → Bool) :
    ∀ l : List Char, noTwoSpaces l = true →
      noTwoSpaces (l.dropWhile p) = true := by
  intro l
  induction l with
  | nil => intro h; exact h
  | cons a t ih =>
    intro h
    by_cases hpa : p a = true
    · rw [List.dropWhile_cons, if_pos hpa]
      exact ih (noTwoSpaces_tail a t h)
    · rw [List.dropWhile_cons, if_neg hpa]
      exact h

/-- The two-space check survives truncation on the right. -/
theorem noTwoSpaces_append_left :
    ∀ l m : List Char, noTwoSpaces (l ++ m) = true → noTwoSpaces l = true := by
  intro l
  induction l with
  | nil => intro m _; rfl
  | cons a t ih =>
    intro m h
    cases t with
    | nil => rfl
    | cons b t2 =>
      rw [List.cons_append, List.cons_append, noTwoSpaces,
        Bool.and_eq_true] at h
      rw [noTwoSpaces, Bool.and_eq_true]
      refine ⟨h.1, ih m ?_⟩
      rw [List.cons_append]
      exact h.2

/-- The collapse output never carries two adjacent whitespace characters. -/
theorem collapse_noTwoSpaces :
    ∀ (fuel : Nat) (prev : Option Char) (l : List Char), l.length ≤ fuel →
      noTwoSpaces (reSubF wsRunM fuel prev l) = true := by
  intro fuel
  induction fuel with
  | zero =>
    intro prev l hl
    have : l = [] := List.length_eq_zero.mp (Nat.le_zero.mp hl)
    subst this
    rw [reSubF_nil]
    rfl
  | succ fuel ih =>
    intro prev l hl
    cases l with
    | nil =>
      rw [reSubF_nil]
      rfl
    | cons c0 rest =>
      simp only [List.length_cons] at hl
      by_cases hc0 : isPySpace c0 = true
      · rw [collapse_cons_space fuel prev c0 rest hc0]
        have hdw : rest.drop (rest.takeWhile isPySpace).length =
            rest.dropWhile isPySpace := drop_length_takeWhile isPySpace rest
        rw [hdw]
        have hdl : (rest.dropWhile isPySpace).length ≤ fuel := by
          have := (List.dropWhile_sublist (l := rest) isPySpace).length_le
          omega
        cases hdwc : rest.dropWhile isPySpace with
        | nil =>
          rw [reSubF_nil]
          rfl
        | cons d t2 =>
          have hd : isPySpace d = false :=
            head_dropWhile_false isPySpace rest d (by rw [hdwc]; rfl)
          rw [hdwc] at hdl
          cases fuel with
          | zero => simp at hdl
          | succ fuel2 =>
            rw [collapse_cons_nospace fuel2 _ d t2 hd]
            rw [noTwoSpaces, Bool.and_eq_true]
            constructor
            · simp [hd]
            · have h2 := ih
                (some ((c0 :: rest).getD (rest.takeWhile isPySpace).length c0))
                (d :: t2) hdl
              rw [collapse_cons_nospace fuel2 _ d t2 hd] at h2
              exact h2
      · have hc0f : isPySpace c0 = false := by simpa using hc0
        rw [collapse_cons_nospace fuel prev c0 rest hc0f]
        have hrec := ih (some c0) rest (by omega)
        cases hrc : reSubF wsRunM fuel (some c0) rest with
        | nil => rfl
        | cons b t2 =>
          rw [hrc] at hrec
          rw [noTwoSpaces, Bool.and_eq_true]
          exact ⟨by simp [hc0f], hrec⟩

end MSPMetro

namespace MSPMetro

open MSPMetro.TextClean

/-- Stripping keeps a subset of the characters. -/
theorem mem_pyStrip (l : List Char) (c : Char) (h : c ∈ pyStrip l) : c ∈ l := by
  unfold pyStrip pyRstrip pyLstrip at h
  rw [List.mem_reverse] at h
  have h1 := (List.dropWhile_sublist isPySpace).mem h
  rw [List.mem_reverse] at h1
  exact (List.dropWhile_sublist isPySpace).mem h1

/-- Stripping never lengthens the text. -/
theorem length_pyStrip (l : List Char) : (pyStrip l).length ≤ l.length := by
  unfold pyStrip pyRstrip pyLstrip
  calc ((l.dropWhile isPySpace).reverse.dropWhile isPySpace).reverse.length
      = ((l.dropWhile isPySpace).reverse.dropWhile isPySpace).length := by
        rw [List.length_reverse]
    _ ≤ (l.dropWhile isPySpace).reverse.length :=
        (List.dropWhile_sublist isPySpace).length_le
    _ = (l.dropWhile isPySpace).length := by rw [List.length_reverse]
    _ ≤ l.length := (List.dropWhile_sublist isPySpace).length_le

/-- The right strip is an initial segment of its input. -/
theorem pyRstrip_append (l : List Char) :
    l = pyRstrip l ++ (l.reverse.takeWhile isPySpace).reverse := by
  unfold pyRstrip
  rw [← List.reverse_append, List.takeWhile_append_dropWhile,
    List.reverse_reverse]

/-- The reverse of the right strip is `dropWhile` on the reverse. -/
theorem pyRstrip_reverse (l : List Char) :
    (pyRstrip l).reverse = l.reverse.dropWhile isPySpace := by
  unfold pyRstrip
  rw [List.reverse_reverse]

/-- After a left strip the head is not whitespace. -/
theorem headNotSpace_pyLstrip (l : List Char) :
    headNotSpace (pyLstrip l) = true := by
  unfold pyLstrip
  cases hd : l.dropWhile isPySpace with
  | nil => rfl
  | cons c t =>
    have := head_dropWhile_false isPySpace l c (by rw [hd]; rfl)
    simp [headNotSpace, this]

/-- A right strip preserves a non-whitespace head. -/
theorem headNotSpace_pyRstrip (y : List Char)
    (h : headNotSpace y = true) : headNotSpace (pyRstrip y) = true := by
  cases hy : pyRstrip y with
  | nil => rfl
  | cons c t =>
    have happ := pyRstrip_append y
    rw [hy] at happ
    rw [List.cons_append] at happ
    rw [happ] at h
    simpa [headNotSpace] using h

/-- After a full strip the last character is not whitespace. -/
theorem lastNotSpace_pyRstrip (y : List Char) :
    headNotSpace (pyRstrip y).reverse = true := by
  rw [pyRstrip_reverse]
  cases hd : y.reverse.dropWhile isPySpace with
  | nil => rfl
  | cons c t =>
    have := head_dropWhile_false isPySpace y.reverse c (by rw [hd]; rfl)
    simp [headNotSpace, this]

/-- The two-space check survives a full strip. -/
theorem noTwoSpaces_pyStrip (l : List Char) (h : noTwoSpaces l = true) :
    noTwoSpaces (pyStrip l) = true := by
  unfold pyStrip
  have h1 : noTwoSpaces (pyLstrip l) = true := noTwoSpaces_dropWhile _ l h
  have happ := pyRstrip_append (pyLstrip l)
  exact noTwoSpaces_append_left _ _ (happ ▸ h1)

/-- After the angle-bracket replacement no angle bracket remains. -/
theorem angleScrub_no_angle (l : List Char) (c : Char)
    (h : c ∈ angleScrub l) : ¬(c = '<') ∧ ¬(c = '>') := by
  unfold angleScrub at h
  rcases List.mem_map.mp h with ⟨d, _, hd⟩
  by_cases hang : (d == '<' || d == '>') = true
  · rw [if_pos hang] at hd
    subst hd
    exact ⟨by decide, by decide⟩
  · rw [if_neg hang] at hd
    subst hd
    simp only [Bool.or_eq_true, beq_iff_eq] at hang
    push_neg at hang
    exact hang

/-- The garbage substitutions only remove characters or write spaces. -/
theorem mem_garbageScrub (l : List Char) (c : Char)
    (h : c ∈ garbageScrub l) : c ∈ l ∨ c = ' ' := by
  unfold garbageScrub at h
  rcases mem_reSub _ _ _ h with h1 | h1
  · rcases mem_reSub _ _ _ h1 with h2 | h2
    · rcases mem_reSub _ _ _ h2 with h3 | h3
      · exact Or.inl h3
      · exact Or.inr h3
    · exact Or.inr h2
  · exact Or.inr h1

/-- The control scrub emits only input characters or spaces, and none of
them is a control or format character. -/
theorem mem_controlScrub (l : List Char) (c : Char)
    (h : c ∈ controlScrub l) : (c ∈ l ∨ c = ' ') ∧ isCcOrCf c = false := by
  unfold controlScrub at h
  rcases List.mem_map.mp h with ⟨d, hdmem, hd⟩
  have hdl := List.mem_filter.mp hdmem
  have hdnot : isCcOrCf d = false := by
    have := hdl.2
    simpa using this
  by_cases hbad : (d == Char.ofNat 0xFFFD || d == Char.ofNat 0xFFFC) = true
  · rw [if_pos hbad] at hd
    subst hd
    exact ⟨Or.inr rfl, by decide⟩
  · rw [if_neg hbad] at hd
    subst hd
    exact ⟨Or.inl hdl.1, hdnot⟩

/-- Every character of the scrubbed text is angle-bracket-free and carries
no control or format category. -/
theorem preClean_ok (s : List Char) (c : Char) (h : c ∈ preClean s) :
    ¬(c = '<') ∧ ¬(c = '>') ∧ isCcOrCf c = false := by
  unfold preClean at h
  obtain ⟨hmem, hccf⟩ := mem_controlScrub _ c h
  refine ⟨?_, ?_, hccf⟩ <;>
  · rcases hmem with h1 | h1
    · rcases mem_garbageScrub _ c h1 with h2 | h2
      · have := angleScrub_no_angle _ c h2
        first
          | exact this.1
          | exact this.2
      · subst h2
        decide
    · subst h1
      decide

end MSPMetro

namespace MSPMetro

open MSPMetro.TextClean

/-- C10: for every input, the output of `strip_markup_to_text` contains no
angle bracket and no Unicode control or format character (categories Cc and
Cf), every whitespace character in it is a plain space, no two of them are
adjacent, and none leads or trails. -/
theorem C10_strip_markup_clean (s : List Char) :
    cleanOutputOk (strip_markup_to_text s) = true := by
  by_cases hs : s = []
  · subst hs
    rfl
  · rw [strip_markup_to_text, if_neg hs]
    have hsp_eq : ∀ c ∈ reSub wsRunM (preClean s), isPySpace c = true →
        c = ' ' := fun c hc =>
      collapse_space_eq (preClean s).length none (preClean s)
        (Nat.le_refl _) c hc
    have hnts : noTwoSpaces (reSub wsRunM (preClean s)) = true :=
      collapse_noTwoSpaces (preClean s).length none (preClean s)
        (Nat.le_refl _)
    unfold cleanOutputOk
    rw [Bool.and_eq_true, Bool.and_eq_true, Bool.and_eq_true]
    refine ⟨⟨⟨?_, ?_⟩, ?_⟩, ?_⟩
    · rw [List.all_eq_true]
      intro c hc
      have hc0 : c ∈ reSub wsRunM (preClean s) := mem_pyStrip _ c hc
      have hangle : ¬(c = '<') ∧ ¬(c = '>') ∧ isCcOrCf c = false := by
        rcases mem_reSub _ _ _ hc0 with h1 | h1
        · exact preClean_ok s c h1
        · subst h1
          exact ⟨by decide, by decide, by decide⟩
      have h1 : (c == '<') = false := by
        simpa using hangle.1
      have h2 : (c == '>') = false := by
        simpa using hangle.2.1
      have h3 : isCcOrCf c = false := hangle.2.2
      by_cases hcsp : isPySpace c = true
      · have hce : c = ' ' := hsp_eq c hc0 hcsp
        subst hce
        decide
      · have hcf : isPySpace c = false := by simpa using hcsp
        simp [h1, h2, h3, hcf]
    · exact noTwoSpaces_pyStrip _ hnts
    · exact headNotSpace_pyRstrip _ (headNotSpace_pyLstrip _)
    · exact lastNotSpace_pyRstrip _

end MSPMetro

namespace MSPMetro

open MSPMetro.TextClean
open MSPMetro.Ingest

/-- The right strip never lengthens the text. -/
theorem length_pyRstrip (l : List Char) : (pyRstrip l).length ≤ l.length := by
  unfold pyRstrip
  calc ((l.reverse.dropWhile isPySpace).reverse).length
      = (l.reverse.dropWhile isPySpace).length := by rw [List.length_reverse]
    _ ≤ l.reverse.length := (List.dropWhile_sublist isPySpace).length_le
    _ = l.length := by rw [List.length_reverse]

/-- The tag-scrub stages never lengthen the text. -/
theorem length_tagScrub (l : List Char) : (tagScrub l).length ≤ l.length := by
  unfold tagScrub
  calc (reSub tagFragmentM (ltToEndSub (reSub wellFormedTagM
        (reSub scriptStyleM (l.map fun c =>
          if c == Char.ofNat 0xA0 then ' ' else c))))).length
      ≤ (ltToEndSub (reSub wellFormedTagM (reSub scriptStyleM
          (l.map fun c => if c == Char.ofNat 0xA0 then ' ' else c)))).length :=
        length_reSub _ _
    _ ≤ (reSub wellFormedTagM (reSub scriptStyleM
          (l.map fun c => if c == Char.ofNat 0xA0 then ' ' else c))).length :=
        length_ltToEndSub _
    _ ≤ (reSub scriptStyleM
          (l.map fun c => if c == Char.ofNat 0xA0 then ' ' else c)).length :=
        length_reSub _ _
    _ ≤ (l.map fun c => if c == Char.ofNat 0xA0 then ' ' else c).length :=
        length_reSub _ _
    _ = l.length := List.length_map _ _

/-- The garbage-scrub stages never lengthen the text. -/
theorem length_garbageScrub (l : List Char) :
    (garbageScrub l).length ≤ l.length := by
  unfold garbageScrub
  calc (reSub wpImgM (reSub attrGarbageM (reSub imgAttrM l))).length
      ≤ (reSub attrGarbageM (reSub imgAttrM l)).length := length_reSub _ _
    _ ≤ (reSub imgAttrM l).length := length_reSub _ _
    _ ≤ l.length := length_reSub _ _

/-- The control scrub never lengthens the text. -/
theorem length_controlScrub (l : List Char) :
    (controlScrub l).length ≤ l.length := by
  unfold controlScrub
  calc ((l.filter (fun c => !(isCcOrCf c))).map _).length
      = (l.filter (fun c => !(isCcOrCf c))).length := List.length_map _ _
    _ ≤ l.length := List.length_filter_le _ _

/-- The whole scrub pipeline never lengthens the text. -/
theorem length_preClean (s : List Char) : (preClean s).length ≤ s.length := by
  unfold preClean
  calc (controlScrub (garbageScrub (angleScrub (tagScrub
        (htmlUnescape s))))).length
      ≤ (garbageScrub (angleScrub (tagScrub (htmlUnescape s)))).length :=
        length_controlScrub _
    _ ≤ (angleScrub (tagScrub (htmlUnescape s))).length := length_garbageScrub _
    _ = (tagScrub (htmlUnescape s)).length := List.length_map _ _
    _ ≤ (htmlUnescape s).length := length_tagScrub _
    _ ≤ s.length := length_htmlUnescape s

/-- `strip_markup_to_text` never lengthens the text. -/
theorem length_strip_markup (s : List Char) :
    (strip_markup_to_text s).length ≤ s.length := by
  unfold strip_markup_to_text
  split
  · simp
  · calc (pyStrip (reSub wsRunM (preClean s))).length
        ≤ (reSub wsRunM (preClean s)).length := length_pyStrip _
      _ ≤ (preClean s).length := length_reSub _ _
      _ ≤ s.length := length_preClean s

/-- `x or ""` undoes `x or None`. -/
theorem orEmpty_noneIfEmpty (l : List Char) : orEmpty (noneIfEmpty l) = l := by
  unfold orEmpty noneIfEmpty
  split
  · rename_i h
    rw [h]
    rfl
  · rfl

/-- C9 (amended): the static page builder truncates cleaned titles to at
most 140 characters (138 when actually cut) and substitutes a horizontal
ellipsis exactly when it cuts; the ingestion parser truncates summaries to
at most 500 characters by a plain slice before normalisation — without
substituting an ellipsis — so the stored summary never exceeds 500
characters; ingestion-stored titles are not length-limited. -/
theorem C9_truncation (s : Option (List Char)) (d : List Char) :
    (clean_title s).length ≤ 140 ∧
    (140 < (TextClean.strip_markup_to_text (orEmpty s)).length →
      (clean_title s).getLast? = some hellip) ∧
    (orEmpty (stored_summary (rss_item_summary d))).length ≤ 500 := by
  refine ⟨?_, ?_, ?_⟩
  · simp only [clean_title]
    split
    · simp
    · split
      · rename_i hne hlong
        rw [List.length_append, List.length_singleton]
        have h1 := length_pyRstrip
          ((TextClean.strip_markup_to_text (orEmpty s)).take 137)
        have h2 := List.length_take_le 137
          (TextClean.strip_markup_to_text (orEmpty s))
        omega
      · rename_i hne hshort
        omega
  · intro hlong
    simp only [clean_title]
    rw [if_neg (by
      intro hnil
      rw [hnil] at hlong
      simp at hlong), if_pos hlong]
    exact List.getLast?_concat _
  · unfold stored_summary rss_item_summary
    rw [orEmpty_noneIfEmpty]
    calc (TextClean.strip_markup_to_text
          (pyStrip (orEmpty (noneIfEmpty (pySlice d 500))))).length
        ≤ (pyStrip (orEmpty (noneIfEmpty (pySlice d 500)))).length :=
          length_strip_markup _
      _ ≤ (orEmpty (noneIfEmpty (pySlice d 500))).length := length_pyStrip _
      _ ≤ 500 := by
          rw [orEmpty_noneIfEmpty]
          exact List.length_take_le 500 d

end MSPMetro

namespace MSPMetro

open MSPMetro.Ingest

set_option maxRecDepth 40000 in
/-- C9: the claim asserts the normaliser truncates summaries with a
horizontal ellipsis substituted and titles to 140 characters; a
501-character description is stored as its plain 500-character slice with
no ellipsis anywhere, and a 200-character title is stored at full length,
untruncated. -/
theorem C9_counterexample :
    500 < longDesc.length ∧
    stored_summary (rss_item_summary longDesc) =
      some (List.replicate 500 'a') ∧
    (List.replicate 500 'a').getLast? ≠ some hellip ∧
    140 < longTitle.length ∧
    stored_title (some longTitle) = some longTitle := by
  refine ⟨by decide, by decide, by decide, by decide, by decide⟩

set_option maxRecDepth 40000 in
/-- Closed instance of `C9_truncation`: a cleaned 141-character title is
cut and ends with the ellipsis. -/
theorem C9_truncation_witness :
    (clean_title (some (List.replicate 141 'b'))).getLast? = some hellip :=
  (C9_truncation (some (List.replicate 141 'b')) []).2.1 (by decide)

end MSPMetro
